import Mathlib

/-!
Audio-driven surface: amplitude ring buffer and scrolling height grid.

A shallow embedding of the state-changing core of `Nurbs_Surface.cpp`:

* `generateControlPoints` (lines 30-41),
* `audioCallback` (lines 44-60),
* the surface update and the colour mapping inside `display` (lines 74-95).

Modelling conventions.

* `float`/`GLfloat` values are IEEE 754 binary32 values (`F32`): a NaN, a
  signed infinity, or a finite value.  Every arithmetic operation computes
  the exact rational result and rounds it to nearest, ties to even, with
  gradual underflow and overflow to infinity (`round32`).  The two zeros are
  identified: the source applies `fabs` to every input sample, and every zero
  divisor it can meet is an integer zero converted to `float`, that is `+0`.
* Each source operation is rounded on its own (binary32 evaluation, no fused
  multiply-add and no extended intermediate precision).
* Line 51 may evaluate `localAmplitude + fabs(in[i])` in `double` before
  storing to `float`; for a sum of two binary32 values the twice-rounded
  result equals the once-rounded one, so `fadd` stands for it.
* `std::vector` storage is modelled as a total function from indices to
  values; every access the source performs uses an index below the vector
  size, and all statements quantify over indices below that size.
* The compile-time constant `GRID_SIZE` (= `NUM_SAMPLES`, 75 in the source) is
  a parameter `N` of every operation, so that results hold for the shipped
  value and for the small grids used in examples.
* `bufferIndex` is an `int` that only ever holds values in `[0, N)`; it is
  modelled as a natural number.
-/

namespace NurbsSurface

/-! ## Binary32 arithmetic -/

/-- A binary32 value: a NaN, an infinity with its sign, or a finite value given
by the rational it denotes.  The two zeros are identified (the source never
inspects the sign of a zero). -/
inductive F32 where
  | nan
  | inf (neg : Bool)
  | fin (q : ℚ)
  deriving DecidableEq

/-- Floor of the base-2 logarithm of a natural number, by repeated halving
(at most `fuel` halvings). -/
def log2Fuel : Nat → Nat → Nat
  | 0, _ => 0
  | fuel + 1, n => if n < 2 then 0 else log2Fuel fuel (n / 2) + 1

/-- Floor of the base-2 logarithm of a positive rational. -/
def ilog2 (a : ℚ) : Int :=
  let k : Int := (log2Fuel a.num.natAbs a.num.natAbs : Int) - (log2Fuel a.den a.den : Int)
  if (2 : ℚ) ^ k ≤ a then k else k - 1

/-- Round to the nearest integer, ties to the even one. -/
def roundHalfEven (x : ℚ) : Int :=
  let f : Int := ⌊x⌋
  let r : ℚ := x - (f : ℚ)
  if r < 1 / 2 then f
  else if 1 / 2 < r then f + 1
  else if f % 2 = 0 then f else f + 1

/-- The binary32 exponent used for a positive magnitude `a`: the exponent of
its binade, or `-126` in the subnormal range. -/
def expOf (a : ℚ) : Int := max (ilog2 a) (-126)

/-- Round a positive magnitude to the binary32 grid of its binade (24
significant bits, spacing `2 ^ (expOf a - 23)`), ties to even. -/
def roundMag (a : ℚ) : ℚ :=
  (roundHalfEven (a / (2 : ℚ) ^ (expOf a - 23)) : ℚ) * (2 : ℚ) ^ (expOf a - 23)

/-- IEEE 754 round-to-nearest-even of a real (rational) result into binary32,
with gradual underflow and overflow to infinity. -/
def round32 (q : ℚ) : F32 :=
  if q = 0 then F32.fin 0
  else if (2 : ℚ) ^ (128 : Int) ≤ roundMag |q| then F32.inf (decide (q < 0))
  else F32.fin (if q < 0 then -roundMag |q| else roundMag |q|)

/-- A decimal `float` literal of the source: the binary32 value nearest to it. -/
def lit (q : ℚ) : F32 := round32 q

/-- Conversion of an `int` or `unsigned int` operand to `float`. -/
def ofInt (n : Int) : F32 := round32 (n : ℚ)

/-- Binary32 addition. -/
def fadd : F32 → F32 → F32
  | F32.nan, _ => F32.nan
  | _, F32.nan => F32.nan
  | F32.inf s, F32.inf t => if s = t then F32.inf s else F32.nan
  | F32.inf s, F32.fin _ => F32.inf s
  | F32.fin _, F32.inf t => F32.inf t
  | F32.fin a, F32.fin b => round32 (a + b)

/-- Binary32 multiplication. -/
def fmul : F32 → F32 → F32
  | F32.nan, _ => F32.nan
  | _, F32.nan => F32.nan
  | F32.inf s, F32.inf t => F32.inf (s != t)
  | F32.inf s, F32.fin b => if b = 0 then F32.nan else F32.inf (s != decide (b < 0))
  | F32.fin a, F32.inf t => if a = 0 then F32.nan else F32.inf (decide (a < 0) != t)
  | F32.fin a, F32.fin b => round32 (a * b)

/-- Binary32 division (a zero divisor is taken as `+0`). -/
def fdiv : F32 → F32 → F32
  | F32.nan, _ => F32.nan
  | _, F32.nan => F32.nan
  | F32.inf _, F32.inf _ => F32.nan
  | F32.inf s, F32.fin b => F32.inf (s != decide (b < 0))
  | F32.fin _, F32.inf _ => F32.fin 0
  | F32.fin a, F32.fin b =>
    if b = 0 then (if a = 0 then F32.nan else F32.inf (decide (a < 0)))
    else round32 (a / b)

/-- Unary minus. -/
def fneg : F32 → F32
  | F32.nan => F32.nan
  | F32.inf s => F32.inf (!s)
  | F32.fin a => F32.fin (-a)

/-- The function `fabs`. -/
def fabs : F32 → F32
  | F32.nan => F32.nan
  | F32.inf _ => F32.inf false
  | F32.fin a => F32.fin |a|

/-- The comparison `a < b` on binary32 values (false when either is a NaN). -/
def flt : F32 → F32 → Bool
  | F32.nan, _ => false
  | _, F32.nan => false
  | F32.inf s, F32.inf t => s && !t
  | F32.inf s, F32.fin _ => s
  | F32.fin _, F32.inf t => !t
  | F32.fin a, F32.fin b => decide (a < b)

/-- The comparison `a <= b` on binary32 values (false when either is a NaN). -/
def fle : F32 → F32 → Bool
  | F32.nan, _ => false
  | _, F32.nan => false
  | F32.inf s, F32.inf t => s || !t
  | F32.inf s, F32.fin _ => s
  | F32.fin _, F32.inf t => !t
  | F32.fin a, F32.fin b => decide (a ≤ b)

/-! ## Constants -/

/-- Source line 8: `const int GRID_SIZE = 75`. -/
def GRID_SIZE : Nat := 75

/-- Source line 9: `const float GRID_SPAN = 10.0f`. -/
def GRID_SPAN : F32 := lit 10.0

/-- Source line 11: `unsigned int BUFFER_FRAMES = 512`, the batch size requested
from the audio device. -/
def BUFFER_FRAMES : Nat := 512

/-- Source line 12: `const int NUM_SAMPLES = GRID_SIZE`. -/
def NUM_SAMPLES : Nat := GRID_SIZE

/-! ## Loops -/

/-- The loop `for (i = 0; i < n; ++i) s = body i s`: iterations `0, 1, ..., n-1`
are run in this order, iteration `n-1` last. -/
def loopUp {σ : Type} (body : Nat → σ → σ) : Nat → σ → σ
  | 0, s => s
  | n + 1, s => body n (loopUp body n s)

/-- The loop `for (i = start; i > 0; --i) s = body i s`: iterations
`start, start-1, ..., 1` are run in this order, iteration `1` last. -/
def loopDown {σ : Type} (body : Nat → σ → σ) : Nat → σ → σ
  | 0, s => s
  | i + 1, s => loopDown body i (body (i + 1) s)

/-! ## State -/

/-- The control-point storage `ctrlpoints[i][j][k]`: row `i`, column `j`,
component `k` (`0` = x, `1` = height, `2` = z). -/
abbrev Grid := Nat → Nat → Nat → F32

/-- The assignment `ctrlpoints[i][j][k] = v`. -/
def setPoint (cp : Grid) (i j k : Nat) (v : F32) : Grid :=
  fun a b c => if a = i ∧ b = j ∧ c = k then v else cp a b c

/-- The global mutable state touched by the audio callback and by the
surface update of `display` (source lines 22, 26, 27). -/
structure State where
  /-- The grid `ctrlpoints`. -/
  ctrlpoints : Grid
  /-- The circular buffer `amplitudeBuffer`. -/
  amplitudeBuffer : Nat → F32
  /-- The write cursor `bufferIndex`. -/
  bufferIndex : Nat

/-! ## generateControlPoints (lines 30-41) -/

/-- The three values lines 36-38 assign to the point at row `a`, column `b`,
by component `k`: `-GRID_SPAN / 2 + b * x_step`, `0.0f`,
`-GRID_SPAN / 2 + a * z_step`, with the `int` operands converted to `float`. -/
def pointValue (x_step z_step : F32) (a b k : Nat) : F32 :=
  if k = 0 then fadd (fdiv (fneg GRID_SPAN) (ofInt 2)) (fmul (ofInt (b : Int)) x_step)
  else if k = 1 then lit 0.0
  else fadd (fdiv (fneg GRID_SPAN) (ofInt 2)) (fmul (ofInt (a : Int)) z_step)

/-- The body of the inner loop of `generateControlPoints` (lines 36-38). -/
def generatePoint (x_step z_step : F32) (i j : Nat) (cp : Grid) : Grid :=
  let cp := setPoint cp i j 0 (fadd (fdiv (fneg GRID_SPAN) (ofInt 2)) (fmul (ofInt (j : Int)) x_step))
  let cp := setPoint cp i j 1 (lit 0.0)
  setPoint cp i j 2 (fadd (fdiv (fneg GRID_SPAN) (ofInt 2)) (fmul (ofInt (i : Int)) z_step))

/-- Lines 31-32: the step `GRID_SPAN / (GRID_SIZE - 1)`, an `int` difference
converted to `float` and divided in binary32. -/
def gridStep (N : Nat) : F32 := fdiv GRID_SPAN (ofInt ((N : Int) - 1))

/-- Source lines 30-41, acting on the grid. -/
def generateControlPoints (N : Nat) (cp : Grid) : Grid :=
  let x_step : F32 := gridStep N
  let z_step : F32 := gridStep N
  loopUp (fun i cp => loopUp (fun j cp => generatePoint x_step z_step i j cp) N cp) N cp

/-! ## audioCallback (lines 44-60) -/

/-- Lines 49-53 of `audioCallback`: accumulate `fabs(in[i])` over the batch in
binary32, starting from `0.0f`, and divide by `nBufferFrames` converted to
`float`. -/
def localAmplitude (inputBuffer : Nat → F32) (nBufferFrames : Nat) : F32 :=
  let acc : F32 := loopUp (fun i acc => fadd acc (fabs (inputBuffer i))) nBufferFrames (lit 0.0)
  fdiv acc (ofInt (nBufferFrames : Int))

/-- Source lines 44-60: store the batch loudness at the cursor, then advance
the cursor modulo `NUM_SAMPLES`. -/
def audioCallback (N : Nat) (inputBuffer : Nat → F32) (nBufferFrames : Nat) (s : State) : State :=
  let amp := localAmplitude inputBuffer nBufferFrames
  { s with
    amplitudeBuffer := Function.update s.amplitudeBuffer s.bufferIndex amp
    bufferIndex := (s.bufferIndex + 1) % N }

/-! ## display: surface update (lines 74-85) -/

/-- The right-hand side of line 77 for a window value `w`:
`(w + 0.1f) * 15.0f` in binary32. -/
def heightOf (w : F32) : F32 := fmul (fadd w (lit 0.1)) (lit 15.0)

/-- Lines 75-78: write row 0 from the amplitude buffer. -/
def updateFirstLine (N : Nat) (amplitudeBuffer : Nat → F32) (bufferIndex : Nat) (cp : Grid) : Grid :=
  loopUp (fun j cp =>
    let sampleIndex := (bufferIndex + j) % N
    setPoint cp 0 j 1 (fmul (fadd (amplitudeBuffer sampleIndex) (lit 0.1)) (lit 15.0))) N cp

/-- Lines 82-84: the inner loop copying the heights of row `i - 1` into row `i`. -/
def copyLine (N : Nat) (i : Nat) (cp : Grid) : Grid :=
  loopUp (fun j cp => setPoint cp i j 1 (cp (i - 1) j 1)) N cp

/-- Lines 81-85: the row propagation, from row `N - 1` down to row `1`. -/
def propagateLines (N : Nat) (cp : Grid) : Grid :=
  loopDown (fun i cp => copyLine N i cp) (N - 1) cp

/-- The state change made by one call of `display` (lines 74-85): row 0 is
written first, the propagation loop runs afterwards. -/
def display (N : Nat) (s : State) : State :=
  let cp := updateFirstLine N s.amplitudeBuffer s.bufferIndex s.ctrlpoints
  let cp := propagateLines N cp
  { s with ctrlpoints := cp }

/-! ## display: colour mapping (lines 92-94) -/

/-- The C++ `std::max(a, b)`: `(a < b) ? b : a`. -/
def stdMax (a b : F32) : F32 := if flt a b then b else a

/-- The C++ `std::min(a, b)`: `(b < a) ? b : a`. -/
def stdMin (a b : F32) : F32 := if flt b a then b else a

/-- Lines 92-94: the green brightness derived from a stored height. -/
def brightness (height : F32) : F32 :=
  let amplitude := fdiv height (lit 20.0)
  let amplitude := stdMin (lit 1.0) (stdMax (lit 0.0) amplitude)
  fadd (lit 0.8) (fmul (lit 0.2) amplitude)

/-- The value of the clamped amplitude `std::min(1.0f, std::max(0.0f, x))` of
line 93: a NaN or a value that is not above `0` gives `0`, a value that is not
below `1` gives `1`, any other value is kept. -/
def clampVal : F32 → ℚ
  | F32.nan => 0
  | F32.inf s => if s then 0 else 1
  | F32.fin a => if 0 < a then (if a < 1 then a else 1) else 0

/-! ## Runs -/

/-- One scheduling event: an audio callback with its batch, or one frame. -/
inductive Event where
  | audio (inputBuffer : Nat → F32) (nBufferFrames : Nat)
  | frame

/-- The effect of one event on the state. -/
def step (N : Nat) (s : State) : Event → State
  | Event.audio inputBuffer nBufferFrames => audioCallback N inputBuffer nBufferFrames s
  | Event.frame => display N s

/-- The effect of a sequence of events, oldest first. -/
def run (N : Nat) (s : State) (es : List Event) : State :=
  es.foldl (step N) s

/-- One audio batch: the sample storage and the frame count. -/
structure Batch where
  /-- The samples `in[i]`. -/
  inputBuffer : Nat → F32
  /-- The count `nBufferFrames`. -/
  nBufferFrames : Nat

/-- A sequence of audio callbacks, oldest batch first, with no frame in between. -/
def runAudio (N : Nat) (s : State) (bs : List Batch) : State :=
  bs.foldl (fun s b => audioCallback N b.inputBuffer b.nBufferFrames s) s

/-- The window read by `display` (line 76): slot `(bufferIndex + j) % N` for
`j = 0, ..., N-1`. -/
def window (N : Nat) (s : State) : List F32 :=
  (List.range N).map (fun j => s.amplitudeBuffer ((s.bufferIndex + j) % N))

/-- The heights of row `i`, columns `0, ..., N-1`. -/
def rowHeights (N : Nat) (s : State) (i : Nat) : List F32 :=
  (List.range N).map (fun j => s.ctrlpoints i j 1)

/-- The state at program start: zeroed storage (lines 22, 26, 27) followed by
`generateControlPoints` (called from `init`, line 122). -/
def initialState (N : Nat) : State :=
  { ctrlpoints := generateControlPoints N (fun _ _ _ => F32.fin 0)
    amplitudeBuffer := fun _ => lit 0.0
    bufferIndex := 0 }

/-- The height line 77 computes for column `j`: the value assigned to
`ctrlpoints[0][j][1]`. -/
def mappedHeight (N : Nat) (s : State) (j : Nat) : F32 :=
  heightOf (s.amplitudeBuffer ((s.bufferIndex + j) % N))

/-- Left-to-right binary32 sum of the absolute values of the first `L`
samples, starting from `0.0f`. -/
def absSum (inputBuffer : Nat → F32) (L : Nat) : F32 :=
  ((List.range L).map (fun i => fabs (inputBuffer i))).foldl fadd (lit 0.0)

/-- A binary32 value that is not negative: `+inf` or a finite value `≥ 0`. -/
def NonNeg (x : F32) : Prop := x = F32.inf false ∨ ∃ r : ℚ, x = F32.fin r ∧ 0 ≤ r

/-! ## Concrete states used in the examples -/

/-- A four-column system after one frame on the all-zero history, followed by
one audio callback on the one-sample batch `[1.0]`. -/
def loudState : State :=
  audioCallback 4 (fun _ => lit 1.0) 1 (display 4 (initialState 4))

/-- A four-column system after one audio callback on the one-sample batch
`[2.0]` from the initial state. -/
def veryLoudState : State :=
  audioCallback 4 (fun _ => lit 2.0) 1 (initialState 4)

/-- A four-column system after one audio callback on the one-sample batch
`[1.23333335]`, the binary32 value just above `37/30`. -/
def thresholdState : State :=
  audioCallback 4 (fun _ => F32.fin (5172975 / 4194304)) 1 (initialState 4)

/-- The state `loudState` with the heights of rows `0` and `3` replaced. -/
def loudStateAltered : State :=
  { loudState with
    ctrlpoints := fun a b k =>
      if (a = 0 ∨ a = 3) ∧ k = 1 then F32.fin 99 else loudState.ctrlpoints a b k }

/-- A four-batch write sequence: one-sample batches `[1], [-2], [3], [-4]`. -/
def fourBatches : List Batch :=
  [⟨fun _ => F32.fin 1, 1⟩, ⟨fun _ => F32.fin (-2), 1⟩, ⟨fun _ => F32.fin 3, 1⟩,
    ⟨fun _ => F32.fin (-4), 1⟩]

/-- A five-batch write sequence: `fourBatches` preceded by the batch `[7, -9]`. -/
def fiveBatches : List Batch :=
  ⟨fun i => if i = 0 then F32.fin 7 else F32.fin (-9), 2⟩ :: fourBatches

/-! ## Lemmas on binary32 rounding -/

theorem log2Fuel_eq (fuel n : Nat) (h : n ≤ fuel) : log2Fuel fuel n = Nat.log2 n := by
  induction fuel generalizing n with
  | zero =>
    have hn : n = 0 := by omega
    subst hn
    simp [log2Fuel, Nat.log2_zero]
  | succ fuel ih =>
    rw [log2Fuel, Nat.log2]
    by_cases h2 : n < 2
    · have h3 : ¬ n ≥ 2 := by omega
      rw [if_pos h2, if_neg h3]
    · have h3 : n ≥ 2 := by omega
      rw [if_neg h2, if_pos h3, ih (n / 2) (by omega)]

theorem log2Fuel_self_le (n : Nat) (h : n ≠ 0) : 2 ^ log2Fuel n n ≤ n := by
  rw [log2Fuel_eq n n (le_refl _)]
  exact Nat.log2_self_le h

theorem lt_log2Fuel_self (n : Nat) : n < 2 ^ (log2Fuel n n + 1) := by
  rw [log2Fuel_eq n n (le_refl _)]
  exact Nat.lt_log2_self

theorem ilog2_spec (a : ℚ) (ha : 0 < a) :
    (2 : ℚ) ^ ilog2 a ≤ a ∧ a < (2 : ℚ) ^ (ilog2 a + 1) := by
  have hnum : 0 < a.num := Rat.num_pos.mpr ha
  have hden : 0 < a.den := a.den_pos
  set ln := log2Fuel a.num.natAbs a.num.natAbs with hln
  set ld := log2Fuel a.den a.den with hld
  have hnat : (a.num.natAbs : ℤ) = a.num := Int.natAbs_of_nonneg (le_of_lt hnum)
  have hnq : ((a.num.natAbs : ℕ) : ℚ) = (a.num : ℚ) := by
    rw [← Int.cast_natCast, hnat]
  have hn0 : a.num.natAbs ≠ 0 := by
    intro h0
    rw [h0] at hnat
    simp at hnat
    omega
  have h1 : ((2 : ℚ) ^ ln) ≤ (a.num : ℚ) := by
    rw [← hnq]
    exact_mod_cast log2Fuel_self_le _ hn0
  have h2 : (a.num : ℚ) < (2 : ℚ) ^ (ln + 1) := by
    rw [← hnq]
    exact_mod_cast lt_log2Fuel_self a.num.natAbs
  have h3 : ((2 : ℚ) ^ ld) ≤ (a.den : ℚ) := by
    exact_mod_cast log2Fuel_self_le _ (by omega)
  have h4 : (a.den : ℚ) < (2 : ℚ) ^ (ld + 1) := by
    exact_mod_cast lt_log2Fuel_self a.den
  have hdq : (0 : ℚ) < (a.den : ℚ) := by exact_mod_cast hden
  have hadef : a = (a.num : ℚ) / (a.den : ℚ) := (Rat.num_div_den a).symm
  have h2pos : ∀ z : ℤ, (0 : ℚ) < (2 : ℚ) ^ z := fun z => zpow_pos (by norm_num) z
  have hlow : (2 : ℚ) ^ ((ln : ℤ) - (ld : ℤ) - 1) ≤ a := by
    have e : (2 : ℚ) ^ ((ln : ℤ) - (ld : ℤ) - 1) = (2 : ℚ) ^ ln / (2 : ℚ) ^ (ld + 1) := by
      rw [show (ln : ℤ) - (ld : ℤ) - 1 = (ln : ℤ) - ((ld + 1 : ℕ) : ℤ) by push_cast; ring,
        zpow_sub₀ (by norm_num : (2 : ℚ) ≠ 0), zpow_natCast, zpow_natCast]
    rw [e, hadef]
    have hp : (0 : ℚ) < (2 : ℚ) ^ (ld + 1) := pow_pos (by norm_num) _
    rw [div_le_div_iff₀ hp hdq]
    have hp2 : (0 : ℚ) ≤ (2 : ℚ) ^ ln := le_of_lt (pow_pos (by norm_num) _)
    calc (2 : ℚ) ^ ln * (a.den : ℚ) ≤ (2 : ℚ) ^ ln * (2 : ℚ) ^ (ld + 1) :=
          mul_le_mul_of_nonneg_left (le_of_lt h4) hp2
      _ ≤ (a.num : ℚ) * (2 : ℚ) ^ (ld + 1) := mul_le_mul_of_nonneg_right h1 (le_of_lt hp)
  have hhigh : a < (2 : ℚ) ^ ((ln : ℤ) - (ld : ℤ) + 1) := by
    have e : (2 : ℚ) ^ ((ln : ℤ) - (ld : ℤ) + 1) = (2 : ℚ) ^ (ln + 1) / (2 : ℚ) ^ ld := by
      rw [show (ln : ℤ) - (ld : ℤ) + 1 = ((ln + 1 : ℕ) : ℤ) - (ld : ℤ) by push_cast; ring,
        zpow_sub₀ (by norm_num : (2 : ℚ) ≠ 0), zpow_natCast, zpow_natCast]
    rw [e]
    conv_lhs => rw [hadef]
    have hp : (0 : ℚ) < (2 : ℚ) ^ ld := pow_pos (by norm_num) _
    rw [div_lt_div_iff₀ hdq hp]
    have hp2 : (0 : ℚ) < (2 : ℚ) ^ (ln + 1) := pow_pos (by norm_num) _
    calc (a.num : ℚ) * (2 : ℚ) ^ ld < (2 : ℚ) ^ (ln + 1) * (2 : ℚ) ^ ld :=
          mul_lt_mul_of_pos_right h2 hp
      _ ≤ (2 : ℚ) ^ (ln + 1) * (a.den : ℚ) := mul_le_mul_of_nonneg_left h3 (le_of_lt hp2)
  unfold ilog2
  simp only [← hln, ← hld]
  by_cases hk : (2 : ℚ) ^ ((ln : ℤ) - (ld : ℤ)) ≤ a
  · rw [if_pos hk]
    exact ⟨hk, hhigh⟩
  · rw [if_neg hk]
    refine ⟨hlow, ?_⟩
    rw [sub_add_cancel]
    exact not_le.mp hk

theorem roundHalfEven_bounds (x : ℚ) : ⌊x⌋ ≤ roundHalfEven x ∧ roundHalfEven x ≤ ⌊x⌋ + 1 := by
  unfold roundHalfEven
  simp only
  split_ifs <;> constructor <;> omega

theorem roundHalfEven_intCast (k : Int) : roundHalfEven (k : ℚ) = k := by
  unfold roundHalfEven
  simp only [Int.floor_intCast, sub_self]
  rw [if_pos (by norm_num)]

theorem roundHalfEven_mono (x y : ℚ) (h : x ≤ y) : roundHalfEven x ≤ roundHalfEven y := by
  have hf : ⌊x⌋ ≤ ⌊y⌋ := Int.floor_mono h
  rcases lt_or_eq_of_le hf with hlt | heq
  · have h1 := (roundHalfEven_bounds x).2
    have h2 := (roundHalfEven_bounds y).1
    omega
  · unfold roundHalfEven
    simp only
    rw [← heq]
    have hr : x - (⌊x⌋ : ℚ) ≤ y - (⌊x⌋ : ℚ) := by linarith
    split_ifs <;> first | omega | (exfalso; linarith)

theorem le_roundHalfEven (k : Int) (x : ℚ) (h : (k : ℚ) ≤ x) : k ≤ roundHalfEven x := by
  have := roundHalfEven_mono _ _ h
  rwa [roundHalfEven_intCast] at this

theorem roundHalfEven_le (k : Int) (x : ℚ) (h : x ≤ (k : ℚ)) : roundHalfEven x ≤ k := by
  have := roundHalfEven_mono _ _ h
  rwa [roundHalfEven_intCast] at this

theorem two_zpow_pos (z : Int) : (0 : ℚ) < (2 : ℚ) ^ z := zpow_pos (by norm_num) z

theorem two_zpow_le (m n : Int) (h : m ≤ n) : (2 : ℚ) ^ m ≤ (2 : ℚ) ^ n :=
  zpow_le_zpow_right₀ (by norm_num) h

theorem ilog2_mono (a b : ℚ) (ha : 0 < a) (hab : a ≤ b) : ilog2 a ≤ ilog2 b := by
  have h1 := (ilog2_spec a ha).1
  have h2 := (ilog2_spec b (lt_of_lt_of_le ha hab)).2
  have h3 : (2 : ℚ) ^ ilog2 a < (2 : ℚ) ^ (ilog2 b + 1) := lt_of_le_of_lt (le_trans h1 hab) h2
  by_contra hc
  have h4 : ilog2 b + 1 ≤ ilog2 a := by omega
  exact absurd (two_zpow_le _ _ h4) (not_le.mpr h3)

theorem expOf_mono (a b : ℚ) (ha : 0 < a) (hab : a ≤ b) : expOf a ≤ expOf b := by
  unfold expOf
  exact max_le_max (ilog2_mono a b ha hab) (le_refl _)

theorem roundMag_nonneg (a : ℚ) (ha : 0 ≤ a) : 0 ≤ roundMag a := by
  unfold roundMag
  have hq := two_zpow_pos (expOf a - 23)
  have h0 : (0 : Int) ≤ roundHalfEven (a / (2 : ℚ) ^ (expOf a - 23)) :=
    le_roundHalfEven 0 _ (by
      have : (0 : ℚ) ≤ a / (2 : ℚ) ^ (expOf a - 23) := div_nonneg ha (le_of_lt hq)
      exact_mod_cast this)
  have h0q : (0 : ℚ) ≤ (roundHalfEven (a / (2 : ℚ) ^ (expOf a - 23)) : ℚ) := by exact_mod_cast h0
  exact mul_nonneg h0q (le_of_lt hq)

theorem roundMag_le_top (a : ℚ) (ha : 0 < a) : roundMag a ≤ (2 : ℚ) ^ (expOf a + 1) := by
  unfold roundMag
  have hq := two_zpow_pos (expOf a - 23)
  have hlt : a < (2 : ℚ) ^ (expOf a + 1) :=
    lt_of_lt_of_le (ilog2_spec a ha).2 (two_zpow_le _ _ (by unfold expOf; omega))
  have hsplit : (2 : ℚ) ^ (expOf a + 1) = (2 : ℚ) ^ (24 : ℕ) * (2 : ℚ) ^ (expOf a - 23) := by
    rw [← zpow_natCast, ← zpow_add₀ (by norm_num : (2 : ℚ) ≠ 0)]
    congr 1
    push_cast
    ring
  have hdiv : a / (2 : ℚ) ^ (expOf a - 23) ≤ ((2 ^ 24 : Int) : ℚ) := by
    rw [div_le_iff₀ hq, show ((2 ^ 24 : Int) : ℚ) = (2 : ℚ) ^ (24 : ℕ) by norm_num, ← hsplit]
    exact le_of_lt hlt
  have h := roundHalfEven_le _ _ hdiv
  have hq2 : (roundHalfEven (a / (2 : ℚ) ^ (expOf a - 23)) : ℚ) ≤ ((2 ^ 24 : Int) : ℚ) := by
    exact_mod_cast h
  rw [hsplit]
  rw [show ((2 ^ 24 : Int) : ℚ) = (2 : ℚ) ^ (24 : ℕ) by norm_num] at hq2
  exact mul_le_mul_of_nonneg_right hq2 (le_of_lt hq)

theorem roundMag_ge_bottom (a : ℚ) (ha : 0 < a) (hn : -126 ≤ ilog2 a) :
    (2 : ℚ) ^ expOf a ≤ roundMag a := by
  have hE : expOf a = ilog2 a := by unfold expOf; exact max_eq_left hn
  unfold roundMag
  have hq := two_zpow_pos (expOf a - 23)
  have hge : (2 : ℚ) ^ expOf a ≤ a := by rw [hE]; exact (ilog2_spec a ha).1
  have hsplit : (2 : ℚ) ^ expOf a = (2 : ℚ) ^ (23 : ℕ) * (2 : ℚ) ^ (expOf a - 23) := by
    rw [← zpow_natCast, ← zpow_add₀ (by norm_num : (2 : ℚ) ≠ 0)]
    congr 1
    push_cast
    ring
  have hdiv : ((2 ^ 23 : Int) : ℚ) ≤ a / (2 : ℚ) ^ (expOf a - 23) := by
    rw [le_div_iff₀ hq, show ((2 ^ 23 : Int) : ℚ) = (2 : ℚ) ^ (23 : ℕ) by norm_num, ← hsplit]
    exact hge
  have h := le_roundHalfEven _ _ hdiv
  have hq2 : ((2 ^ 23 : Int) : ℚ) ≤ (roundHalfEven (a / (2 : ℚ) ^ (expOf a - 23)) : ℚ) := by
    exact_mod_cast h
  rw [hsplit]
  rw [show ((2 ^ 23 : Int) : ℚ) = (2 : ℚ) ^ (23 : ℕ) by norm_num] at hq2
  exact mul_le_mul_of_nonneg_right hq2 (le_of_lt hq)

theorem roundMag_mono (a b : ℚ) (ha : 0 < a) (hab : a ≤ b) : roundMag a ≤ roundMag b := by
  have hb : 0 < b := lt_of_lt_of_le ha hab
  rcases lt_or_eq_of_le (expOf_mono a b ha hab) with hlt | heq
  · have h1 := roundMag_le_top a ha
    have hnb : -126 ≤ ilog2 b := by
      by_contra hc
      have : expOf b = -126 := by unfold expOf; exact max_eq_right (by omega)
      have h126 : -126 ≤ expOf a := by unfold expOf; exact le_max_right _ _
      omega
    have h2 := roundMag_ge_bottom b hb hnb
    exact le_trans h1 (le_trans (two_zpow_le _ _ (by omega)) h2)
  · unfold roundMag
    rw [heq]
    have hq := two_zpow_pos (expOf b - 23)
    have hdiv : a / (2 : ℚ) ^ (expOf b - 23) ≤ b / (2 : ℚ) ^ (expOf b - 23) :=
      div_le_div_of_nonneg_right hab (le_of_lt hq)
    have h := roundHalfEven_mono _ _ hdiv
    have hq2 : (roundHalfEven (a / (2 : ℚ) ^ (expOf b - 23)) : ℚ)
        ≤ (roundHalfEven (b / (2 : ℚ) ^ (expOf b - 23)) : ℚ) := by exact_mod_cast h
    exact mul_le_mul_of_nonneg_right hq2 (le_of_lt hq)

theorem round32_zero : round32 0 = F32.fin 0 := by
  unfold round32
  rw [if_pos rfl]

theorem round32_of_pos (q : ℚ) (hq : 0 < q) :
    ((2 : ℚ) ^ (128 : Int) ≤ roundMag q ∧ round32 q = F32.inf false)
    ∨ (roundMag q < (2 : ℚ) ^ (128 : Int) ∧ round32 q = F32.fin (roundMag q)) := by
  have h0 : q ≠ 0 := ne_of_gt hq
  have hneg : ¬ q < 0 := not_lt.mpr (le_of_lt hq)
  unfold round32
  rw [if_neg h0, abs_of_pos hq]
  by_cases hbig : (2 : ℚ) ^ (128 : Int) ≤ roundMag q
  · left
    rw [if_pos hbig]
    exact ⟨hbig, by simp [hneg]⟩
  · right
    rw [if_neg hbig, if_neg hneg]
    exact ⟨not_le.mp hbig, rfl⟩

theorem round32_of_neg (q : ℚ) (hq : q < 0) :
    ((2 : ℚ) ^ (128 : Int) ≤ roundMag (-q) ∧ round32 q = F32.inf true)
    ∨ (roundMag (-q) < (2 : ℚ) ^ (128 : Int) ∧ round32 q = F32.fin (-roundMag (-q))) := by
  have h0 : q ≠ 0 := ne_of_lt hq
  unfold round32
  rw [if_neg h0, abs_of_neg hq]
  by_cases hbig : (2 : ℚ) ^ (128 : Int) ≤ roundMag (-q)
  · left
    rw [if_pos hbig]
    exact ⟨hbig, by simp [hq]⟩
  · right
    rw [if_neg hbig, if_pos hq]
    exact ⟨not_le.mp hbig, rfl⟩

/-- Rounding into binary32 is monotone. -/
theorem round32_mono (p q : ℚ) (h : p ≤ q) : fle (round32 p) (round32 q) = true := by
  rcases lt_trichotomy p 0 with hp | hp | hp
  · have hrp := roundMag_nonneg (-p) (by linarith)
    rcases lt_trichotomy q 0 with hq | hq | hq
    · have hm : roundMag (-q) ≤ roundMag (-p) := roundMag_mono (-q) (-p) (by linarith) (by linarith)
      rcases round32_of_neg p hp with ⟨_, e1⟩ | ⟨b1, e1⟩ <;>
        rcases round32_of_neg q hq with ⟨b2, e2⟩ | ⟨b2, e2⟩ <;> rw [e1, e2] <;> simp [fle]
      · linarith
      · exact hm
    · subst hq
      rw [round32_zero]
      rcases round32_of_neg p hp with ⟨_, e1⟩ | ⟨_, e1⟩ <;> rw [e1] <;> simp [fle]
      exact hrp
    · have hrq := roundMag_nonneg q (le_of_lt hq)
      rcases round32_of_neg p hp with ⟨_, e1⟩ | ⟨_, e1⟩ <;>
        rcases round32_of_pos q hq with ⟨_, e2⟩ | ⟨_, e2⟩ <;> rw [e1, e2] <;> simp [fle]
      linarith
  · subst hp
    rw [round32_zero]
    rcases lt_or_eq_of_le h with hq | hq
    · have hrq := roundMag_nonneg q (le_of_lt hq)
      rcases round32_of_pos q hq with ⟨_, e2⟩ | ⟨_, e2⟩ <;> rw [e2] <;> simp [fle]
      exact hrq
    · rw [← hq, round32_zero]
      simp [fle]
  · have hq : 0 < q := lt_of_lt_of_le hp h
    have hm : roundMag p ≤ roundMag q := roundMag_mono p q hp h
    rcases round32_of_pos p hp with ⟨b1, e1⟩ | ⟨b1, e1⟩ <;>
      rcases round32_of_pos q hq with ⟨b2, e2⟩ | ⟨b2, e2⟩ <;> rw [e1, e2] <;> simp [fle]
    · linarith
    · exact hm

/-- A rounded value lies above every binary32 value that rounds from below it. -/
theorem round32_lower (lo l q : ℚ) (hl : round32 lo = F32.fin l) (h : lo ≤ q) :
    round32 q = F32.inf false ∨ ∃ r, round32 q = F32.fin r ∧ l ≤ r := by
  have hm := round32_mono lo q h
  rw [hl] at hm
  cases hr : round32 q with
  | nan => rw [hr] at hm; simp [fle] at hm
  | inf s =>
    rw [hr] at hm
    simp [fle] at hm
    left
    rw [hm]
  | fin r =>
    rw [hr] at hm
    simp [fle] at hm
    exact Or.inr ⟨r, rfl, hm⟩

/-- A rounded value lies below every binary32 value that rounds from above it. -/
theorem round32_upper (hi u q : ℚ) (hu : round32 hi = F32.fin u) (h : q ≤ hi) :
    round32 q = F32.inf true ∨ ∃ r, round32 q = F32.fin r ∧ r ≤ u := by
  have hm := round32_mono q hi h
  rw [hu] at hm
  cases hr : round32 q with
  | nan => rw [hr] at hm; simp [fle] at hm
  | inf s =>
    rw [hr] at hm
    simp [fle] at hm
    left
    rw [hm]
  | fin r =>
    rw [hr] at hm
    simp [fle] at hm
    exact Or.inr ⟨r, rfl, hm⟩

/-- A real between two reals that round to finite values rounds to a finite
value between them. -/
theorem round32_between (lo l hi u q : ℚ) (hl : round32 lo = F32.fin l)
    (hu : round32 hi = F32.fin u) (h1 : lo ≤ q) (h2 : q ≤ hi) :
    ∃ r, round32 q = F32.fin r ∧ l ≤ r ∧ r ≤ u := by
  rcases round32_lower lo l q hl h1 with e | ⟨r, e, hr⟩
  · rcases round32_upper hi u q hu h2 with e2 | ⟨r2, e2, _⟩
    · rw [e] at e2; cases e2
    · rw [e] at e2; cases e2
  · rcases round32_upper hi u q hu h2 with e2 | ⟨r2, e2, hr2⟩
    · rw [e] at e2; cases e2
    · rw [e] at e2
      cases e2
      exact ⟨r, e, hr, hr2⟩
/-! ## Basic lemmas on the loops -/

theorem setPoint_apply (cp : Grid) (i j k : Nat) (v : F32) (a b c : Nat) :
    setPoint cp i j k v a b c = if a = i ∧ b = j ∧ c = k then v else cp a b c := rfl

theorem updateFirstLine_apply (N : Nat) (buf : Nat → F32) (c : Nat) (cp : Grid) (n a b k : Nat) :
    loopUp (fun j cp => setPoint cp 0 j 1 (fmul (fadd (buf ((c + j) % N)) (lit 0.1)) (lit 15.0))) n cp a b k
      = if a = 0 ∧ b < n ∧ k = 1 then fmul (fadd (buf ((c + b) % N)) (lit 0.1)) (lit 15.0) else cp a b k := by
  induction n with
  | zero => simp [loopUp]
  | succ n ih =>
    simp only [loopUp, setPoint_apply, ih]
    by_cases h1 : a = 0 ∧ b = n ∧ k = 1
    · obtain ⟨ha, hb, hk⟩ := h1
      subst ha hb hk
      simp
    · rw [if_neg h1]
      by_cases h2 : a = 0 ∧ b < n ∧ k = 1
      · rw [if_pos h2, if_pos ⟨h2.1, by omega, h2.2.2⟩]
      · rw [if_neg h2, if_neg]
        rintro ⟨ha, hb, hk⟩
        rcases Nat.lt_succ_iff_lt_or_eq.mp hb with hb | hb
        · exact h2 ⟨ha, hb, hk⟩
        · exact h1 ⟨ha, hb, hk⟩

theorem copyLine_loop_apply (i : Nat) (hi : 0 < i) (cp : Grid) (n a b k : Nat) :
    loopUp (fun j cp => setPoint cp i j 1 (cp (i - 1) j 1)) n cp a b k
      = if a = i ∧ b < n ∧ k = 1 then cp (i - 1) b 1 else cp a b k := by
  induction n generalizing a b k with
  | zero => simp [loopUp]
  | succ n ih =>
    simp only [loopUp, setPoint_apply]
    rw [ih, ih]
    have hne : ¬ (i - 1 = i ∧ n < n ∧ 1 = 1) := by omega
    rw [if_neg hne]
    by_cases h1 : a = i ∧ b = n ∧ k = 1
    · obtain ⟨ha, hb, hk⟩ := h1
      subst ha hb hk
      simp
    · rw [if_neg h1]
      by_cases h2 : a = i ∧ b < n ∧ k = 1
      · rw [if_pos h2, if_pos ⟨h2.1, by omega, h2.2.2⟩]
      · rw [if_neg h2, if_neg]
        rintro ⟨ha, hb, hk⟩
        rcases Nat.lt_succ_iff_lt_or_eq.mp hb with hb | hb
        · exact h2 ⟨ha, hb, hk⟩
        · exact h1 ⟨ha, hb, hk⟩

theorem copyLine_apply (N i : Nat) (hi : 0 < i) (cp : Grid) (a b k : Nat) :
    copyLine N i cp a b k = if a = i ∧ b < N ∧ k = 1 then cp (i - 1) b 1 else cp a b k :=
  copyLine_loop_apply i hi cp N a b k

theorem propagate_loop_apply (N : Nat) (m : Nat) (cp : Grid) (a b k : Nat) :
    loopDown (fun i cp => copyLine N i cp) m cp a b k
      = if (1 ≤ a ∧ a ≤ m) ∧ b < N ∧ k = 1 then cp (a - 1) b 1 else cp a b k := by
  induction m generalizing cp a b k with
  | zero =>
    have hne : ¬ ((1 ≤ a ∧ a ≤ 0) ∧ b < N ∧ k = 1) := by omega
    simp only [loopDown, if_neg hne]
  | succ m ih =>
    simp only [loopDown]
    rw [ih]
    by_cases h1 : (1 ≤ a ∧ a ≤ m) ∧ b < N ∧ k = 1
    · rw [if_pos h1, if_pos ⟨⟨h1.1.1, by omega⟩, h1.2⟩, copyLine_apply N (m + 1) (by omega)]
      rw [if_neg]
      omega
    · rw [if_neg h1, copyLine_apply N (m + 1) (by omega)]
      by_cases h2 : a = m + 1 ∧ b < N ∧ k = 1
      · obtain ⟨ha, hb, hk⟩ := h2
        subst ha
        rw [if_pos ⟨rfl, hb, hk⟩, if_pos ⟨⟨by omega, le_refl _⟩, hb, hk⟩]
      · rw [if_neg h2, if_neg]
        rintro ⟨⟨ha1, ha2⟩, hb, hk⟩
        rcases Nat.lt_or_ge a (m + 1) with h | h
        · exact h1 ⟨⟨ha1, by omega⟩, hb, hk⟩
        · exact h2 ⟨by omega, hb, hk⟩

/-- Pointwise description of the grid after one call of `display`. -/
theorem display_ctrlpoints (N : Nat) (s : State) (a b k : Nat) :
    (display N s).ctrlpoints a b k
      = if a < N ∧ b < N ∧ k = 1 then
          (if a ≤ 1 then mappedHeight N s b else s.ctrlpoints (a - 1) b 1)
        else s.ctrlpoints a b k := by
  simp only [display, propagateLines, updateFirstLine, mappedHeight, heightOf]
  rw [propagate_loop_apply, updateFirstLine_apply, updateFirstLine_apply]
  by_cases hb : b < N ∧ k = 1
  · obtain ⟨hb, hk⟩ := hb
    subst hk
    rcases Nat.lt_or_ge a N with ha | ha
    · rcases Nat.eq_zero_or_pos a with h0 | h0
      · subst h0
        simp [hb, ha]
      · rcases Nat.lt_or_ge 1 a with h1 | h1
        · have e1 : ¬ (a - 1 = 0 ∧ b < N ∧ 1 = 1) := by omega
          have e2 : ¬ (a ≤ 1) := by omega
          rw [if_pos ⟨⟨h0, by omega⟩, hb, rfl⟩, if_neg e1, if_pos ⟨ha, hb, rfl⟩, if_neg e2]
        · have e : a = 1 := by omega
          subst e
          rw [if_pos ⟨⟨le_refl _, by omega⟩, hb, rfl⟩, if_pos ⟨rfl, hb, rfl⟩,
            if_pos ⟨ha, hb, rfl⟩, if_pos (le_refl _)]
    · have e1 : ¬ ((1 ≤ a ∧ a ≤ N - 1) ∧ b < N ∧ 1 = 1) := by omega
      have e2 : ¬ (a = 0 ∧ b < N ∧ 1 = 1) := by omega
      have e3 : ¬ (a < N ∧ b < N ∧ 1 = 1) := by omega
      rw [if_neg e1, if_neg e2, if_neg e3]
  · have e1 : ¬ ((1 ≤ a ∧ a ≤ N - 1) ∧ b < N ∧ k = 1) := fun h => hb h.2
    have e2 : ¬ (a = 0 ∧ b < N ∧ k = 1) := fun h => hb h.2
    have e3 : ¬ (a < N ∧ b < N ∧ k = 1) := fun h => hb h.2
    rw [if_neg e1, if_neg e2, if_neg e3]

theorem display_amplitudeBuffer (N : Nat) (s : State) :
    (display N s).amplitudeBuffer = s.amplitudeBuffer := rfl

theorem display_bufferIndex (N : Nat) (s : State) :
    (display N s).bufferIndex = s.bufferIndex := rfl

/-! ## Repeated frames -/

theorem iterate_display_amplitudeBuffer (N t : Nat) (s : State) :
    (Nat.iterate (display N) t s).amplitudeBuffer = s.amplitudeBuffer := by
  induction t generalizing s with
  | zero => rfl
  | succ t ih => rw [Function.iterate_succ_apply, ih, display_amplitudeBuffer]

theorem iterate_display_bufferIndex (N t : Nat) (s : State) :
    (Nat.iterate (display N) t s).bufferIndex = s.bufferIndex := by
  induction t generalizing s with
  | zero => rfl
  | succ t ih => rw [Function.iterate_succ_apply, ih, display_bufferIndex]

theorem iterate_display_rows (N t : Nat) (s : State) (i j : Nat) (hit : i < t) (hi : i < N)
    (hj : j < N) :
    (Nat.iterate (display N) t s).ctrlpoints i j 1 = mappedHeight N s j := by
  induction t generalizing i with
  | zero => omega
  | succ t ih =>
    rw [Function.iterate_succ_apply', display_ctrlpoints, if_pos ⟨hi, hj, rfl⟩]
    by_cases h1 : i ≤ 1
    · rw [if_pos h1]
      simp only [mappedHeight, iterate_display_amplitudeBuffer, iterate_display_bufferIndex]
    · rw [if_neg h1]
      exact ih (i - 1) (by omega) (by omega)

theorem window_length (N : Nat) (s : State) : (window N s).length = N := by
  simp [window]

theorem rowHeights_length (N : Nat) (s : State) (i : Nat) : (rowHeights N s i).length = N := by
  simp [rowHeights]

theorem rowHeights_display_zero (N : Nat) (s : State) :
    rowHeights N (display N s) 0 = (window N s).map heightOf := by
  simp only [rowHeights, window, List.map_map]
  apply List.map_congr_left
  intro j hj
  have hjN : j < N := List.mem_range.mp hj
  show (display N s).ctrlpoints 0 j 1 = _
  rw [display_ctrlpoints, if_pos ⟨by omega, hjN, rfl⟩, if_pos (by omega)]
  simp [mappedHeight]


/-! ## The amplitude ring -/

theorem accumulate_eq_absSum (inputBuffer : Nat → F32) (n : Nat) :
    loopUp (fun i acc => fadd acc (fabs (inputBuffer i))) n (lit 0.0) = absSum inputBuffer n := by
  induction n with
  | zero => rfl
  | succ n ih =>
    simp only [loopUp, ih, absSum, List.range_succ, List.map_append, List.foldl_append,
      List.map_cons, List.map_nil, List.foldl_cons, List.foldl_nil]

theorem localAmplitude_eq (inputBuffer : Nat → F32) (L : Nat) :
    localAmplitude inputBuffer L = fdiv (absSum inputBuffer L) (ofInt (L : Int)) := by
  simp only [localAmplitude, accumulate_eq_absSum]

theorem audioCallback_amplitudeBuffer (N : Nat) (inputBuffer : Nat → F32) (L : Nat) (s : State)
    (i : Nat) :
    (audioCallback N inputBuffer L s).amplitudeBuffer i
      = if i = s.bufferIndex then localAmplitude inputBuffer L else s.amplitudeBuffer i := by
  simp [audioCallback, Function.update_apply]

theorem audioCallback_bufferIndex (N : Nat) (inputBuffer : Nat → F32) (L : Nat) (s : State) :
    (audioCallback N inputBuffer L s).bufferIndex = (s.bufferIndex + 1) % N := rfl

theorem audioCallback_ctrlpoints (N : Nat) (inputBuffer : Nat → F32) (L : Nat) (s : State) :
    (audioCallback N inputBuffer L s).ctrlpoints = s.ctrlpoints := rfl

theorem add_mod_ne_self (N c d : Nat) (hc : c < N) (hd0 : 0 < d) (hd : d < N) :
    (c + d) % N ≠ c := by
  intro h
  have h1 : (c + d) % N = (c + 0) % N := by rw [h, Nat.add_zero, Nat.mod_eq_of_lt hc]
  have h2 : d % N = 0 % N := Nat.ModEq.add_left_cancel' c h1
  rw [Nat.mod_eq_of_lt hd, Nat.zero_mod] at h2
  omega

theorem runAudio_cons (N : Nat) (s : State) (b : Batch) (bs : List Batch) :
    runAudio N s (b :: bs) = runAudio N (audioCallback N b.inputBuffer b.nBufferFrames s) bs := rfl

theorem runAudio_bufferIndex (N : Nat) (s : State) (bs : List Batch) (hc : s.bufferIndex < N) :
    (runAudio N s bs).bufferIndex = (s.bufferIndex + bs.length) % N := by
  induction bs generalizing s with
  | nil => simp [runAudio, Nat.mod_eq_of_lt hc]
  | cons b bs ih =>
    rw [runAudio_cons, ih _ (Nat.mod_lt _ (by omega)), audioCallback_bufferIndex,
      List.length_cons, Nat.mod_add_mod]
    congr 1
    omega

theorem runAudio_untouched (N : Nat) (s : State) (bs : List Batch) (hc : s.bufferIndex < N)
    (slot : Nat) (h : ∀ t, t < bs.length → (s.bufferIndex + t) % N ≠ slot) :
    (runAudio N s bs).amplitudeBuffer slot = s.amplitudeBuffer slot := by
  induction bs generalizing s with
  | nil => rfl
  | cons b bs ih =>
    rw [runAudio_cons, ih _ (Nat.mod_lt _ (by omega))]
    · rw [audioCallback_amplitudeBuffer, if_neg]
      intro e
      have := h 0 (by simp)
      rw [Nat.add_zero, Nat.mod_eq_of_lt hc] at this
      exact this e.symm
    · intro t ht
      rw [audioCallback_bufferIndex, Nat.mod_add_mod]
      have := h (t + 1) (by simpa using ht)
      rwa [show s.bufferIndex + 1 + t = s.bufferIndex + (t + 1) by omega]

theorem runAudio_recent (N : Nat) (s : State) (bs : List Batch) (hc : s.bufferIndex < N)
    (m : Nat) (hm : m < bs.length) (hN : bs.length ≤ m + N) :
    (runAudio N s bs).amplitudeBuffer ((s.bufferIndex + m) % N)
      = localAmplitude (bs.get ⟨m, hm⟩).inputBuffer (bs.get ⟨m, hm⟩).nBufferFrames := by
  induction bs generalizing s m with
  | nil => simp at hm
  | cons b bs ih =>
    rw [runAudio_cons]
    cases m with
    | zero =>
      rw [Nat.add_zero, Nat.mod_eq_of_lt hc, runAudio_untouched _ _ _ (Nat.mod_lt _ (by omega))]
      · simp [audioCallback_amplitudeBuffer]
      · intro t ht
        rw [audioCallback_bufferIndex, Nat.mod_add_mod,
          show s.bufferIndex + 1 + t = s.bufferIndex + (t + 1) by omega]
        apply add_mod_ne_self N _ _ hc (by omega)
        simp at hN
        omega
    | succ m =>
      have hm2 : m < bs.length := by simpa using hm
      have := ih (audioCallback N b.inputBuffer b.nBufferFrames s) (Nat.mod_lt _ (by omega)) m hm2
        (by simp at hN; omega)
      rw [audioCallback_bufferIndex, Nat.mod_add_mod,
        show s.bufferIndex + 1 + m = s.bufferIndex + (m + 1) by omega] at this
      rw [this]
      rfl

/-! ## The planar layout -/

theorem generatePoint_apply (xs zs : F32) (i j : Nat) (cp : Grid) (a b k : Nat) :
    generatePoint xs zs i j cp a b k
      = if a = i ∧ b = j ∧ k < 3 then pointValue xs zs a b k else cp a b k := by
  simp only [generatePoint, setPoint_apply, pointValue]
  by_cases h : a = i ∧ b = j
  · obtain ⟨ha, hb⟩ := h
    subst ha hb
    rcases Nat.lt_or_ge k 3 with hk | hk
    · interval_cases k <;> simp
    · have h0 : k ≠ 0 := by omega
      have h1 : k ≠ 1 := by omega
      have h2 : k ≠ 2 := by omega
      have h3 : ¬ k < 3 := by omega
      simp [h0, h1, h2, h3]
  · have e0 : ¬ (a = i ∧ b = j ∧ k = 0) := fun x => h ⟨x.1, x.2.1⟩
    have e1 : ¬ (a = i ∧ b = j ∧ k = 1) := fun x => h ⟨x.1, x.2.1⟩
    have e2 : ¬ (a = i ∧ b = j ∧ k = 2) := fun x => h ⟨x.1, x.2.1⟩
    have e3 : ¬ (a = i ∧ b = j ∧ k < 3) := fun x => h ⟨x.1, x.2.1⟩
    rw [if_neg e2, if_neg e1, if_neg e0, if_neg e3]

theorem generateLine_apply (xs zs : F32) (i : Nat) (cp : Grid) (n a b k : Nat) :
    loopUp (fun j cp => generatePoint xs zs i j cp) n cp a b k
      = if a = i ∧ b < n ∧ k < 3 then pointValue xs zs a b k else cp a b k := by
  induction n with
  | zero => simp [loopUp]
  | succ n ih =>
    simp only [loopUp, generatePoint_apply, ih]
    by_cases h1 : a = i ∧ b = n ∧ k < 3
    · rw [if_pos h1, if_pos ⟨h1.1, by omega, h1.2.2⟩]
    · rw [if_neg h1]
      by_cases h2 : a = i ∧ b < n ∧ k < 3
      · rw [if_pos h2, if_pos ⟨h2.1, by omega, h2.2.2⟩]
      · rw [if_neg h2, if_neg]
        rintro ⟨ha, hb, hk⟩
        rcases Nat.lt_succ_iff_lt_or_eq.mp hb with hb | hb
        · exact h2 ⟨ha, hb, hk⟩
        · exact h1 ⟨ha, hb, hk⟩

theorem generateLines_apply (xs zs : F32) (N : Nat) (cp : Grid) (m a b k : Nat) :
    loopUp (fun i cp => loopUp (fun j cp => generatePoint xs zs i j cp) N cp) m cp a b k
      = if a < m ∧ b < N ∧ k < 3 then pointValue xs zs a b k else cp a b k := by
  induction m with
  | zero => simp [loopUp]
  | succ m ih =>
    simp only [loopUp]
    rw [generateLine_apply, ih]
    by_cases h1 : a = m ∧ b < N ∧ k < 3
    · rw [if_pos h1, if_pos ⟨by omega, h1.2⟩]
    · rw [if_neg h1]
      by_cases h2 : a < m ∧ b < N ∧ k < 3
      · rw [if_pos h2, if_pos ⟨by omega, h2.2⟩]
      · rw [if_neg h2, if_neg]
        rintro ⟨ha, hb, hk⟩
        rcases Nat.lt_succ_iff_lt_or_eq.mp ha with ha | ha
        · exact h2 ⟨ha, hb, hk⟩
        · exact h1 ⟨ha, hb, hk⟩

theorem generateControlPoints_apply (N : Nat) (cp : Grid) (a b k : Nat) :
    generateControlPoints N cp a b k
      = if a < N ∧ b < N ∧ k < 3 then
          pointValue (gridStep N) (gridStep N) a b k
        else cp a b k :=
  generateLines_apply _ _ N cp N a b k

theorem step_ctrlpoints_x (N : Nat) (s : State) (e : Event) (a b : Nat) :
    (step N s e).ctrlpoints a b 0 = s.ctrlpoints a b 0 := by
  cases e with
  | audio inputBuffer L => rfl
  | frame =>
    show (display N s).ctrlpoints a b 0 = _
    rw [display_ctrlpoints, if_neg]
    omega

theorem step_ctrlpoints_z (N : Nat) (s : State) (e : Event) (a b : Nat) :
    (step N s e).ctrlpoints a b 2 = s.ctrlpoints a b 2 := by
  cases e with
  | audio inputBuffer L => rfl
  | frame =>
    show (display N s).ctrlpoints a b 2 = _
    rw [display_ctrlpoints, if_neg]
    omega

theorem run_ctrlpoints_xz (N : Nat) (s : State) (es : List Event) (a b : Nat) :
    (run N s es).ctrlpoints a b 0 = s.ctrlpoints a b 0
    ∧ (run N s es).ctrlpoints a b 2 = s.ctrlpoints a b 2 := by
  induction es generalizing s with
  | nil => exact ⟨rfl, rfl⟩
  | cons e es ih =>
    have h := ih (step N s e)
    rw [step_ctrlpoints_x, step_ctrlpoints_z] at h
    exact h


/-! ## The grid after one frame -/

theorem display_height_front (N : Nat) (s : State) (a b : Nat) (ha : a ≤ 1) (haN : a < N)
    (hb : b < N) : (display N s).ctrlpoints a b 1 = mappedHeight N s b := by
  rw [display_ctrlpoints, if_pos ⟨haN, hb, rfl⟩, if_pos ha]

theorem display_height_deeper (N : Nat) (s : State) (a b : Nat) (ha : 2 ≤ a) (haN : a < N)
    (hb : b < N) : (display N s).ctrlpoints a b 1 = s.ctrlpoints (a - 1) b 1 := by
  have h : ¬ a ≤ 1 := by omega
  rw [display_ctrlpoints, if_pos ⟨haN, hb, rfl⟩, if_neg h]


/-! ## Values of the height mapping -/

theorem lit_tenth : lit 0.1 = F32.fin (13421773 / 134217728) := by decide!

theorem lit_fifteen : lit 15.0 = F32.fin 15 := by decide!

/-- From the binary32 value `1.2333335` upwards the mapped height exceeds `20`. -/
theorem heightOf_above (w : ℚ) (h : 10345951 / 8388608 ≤ w) :
    flt (F32.fin 20) (heightOf (F32.fin w)) = true := by
  have e0 : round32 (10345951 / 8388608 + 13421773 / 134217728) = F32.fin (2796203 / 2097152) := by
    decide!
  have e1 : round32 (2796203 / 2097152 * 15) = F32.fin (10485761 / 524288) := by decide!
  simp only [heightOf, lit_tenth, lit_fifteen]
  show flt (F32.fin 20) (fmul (round32 (w + 13421773 / 134217728)) (F32.fin 15)) = true
  rcases round32_lower _ _ (w + 13421773 / 134217728) e0 (by linarith) with e | ⟨r, e, hr⟩
  · rw [e]
    decide!
  · rw [e]
    show flt (F32.fin 20) (round32 (r * 15)) = true
    rcases round32_lower _ _ (r * 15) e1 (by linarith) with e2 | ⟨r2, e2, hr2⟩
    · rw [e2]
      rfl
    · rw [e2]
      show decide ((20 : ℚ) < r2) = true
      rw [decide_eq_true_iff]
      have : (20 : ℚ) < 10485761 / 524288 := by norm_num
      linarith

/-- Up to the binary32 value `1.23333335` (the one just above `37/30`) the mapped
height does not exceed `20`. -/
theorem heightOf_below (w : ℚ) (h : w ≤ 5172975 / 4194304) :
    flt (F32.fin 20) (heightOf (F32.fin w)) = false := by
  have e0 : round32 (5172975 / 4194304 + 13421773 / 134217728) = F32.fin (11184811 / 8388608) := by
    decide!
  have e1 : round32 (11184811 / 8388608 * 15) = F32.fin 20 := by decide!
  simp only [heightOf, lit_tenth, lit_fifteen]
  show flt (F32.fin 20) (fmul (round32 (w + 13421773 / 134217728)) (F32.fin 15)) = false
  rcases round32_upper _ _ (w + 13421773 / 134217728) e0 (by linarith) with e | ⟨r, e, hr⟩
  · rw [e]
    decide!
  · rw [e]
    show flt (F32.fin 20) (round32 (r * 15)) = false
    rcases round32_upper _ _ (r * 15) e1 (by linarith) with e2 | ⟨r2, e2, hr2⟩
    · rw [e2]
      rfl
    · rw [e2]
      show decide ((20 : ℚ) < r2) = false
      rw [decide_eq_false_iff_not]
      exact not_lt.mpr hr2

/-! ## Claim C1: row shift of one frame -/

/-- Claim C1, as stated, fails on the four-column scenario of the specification.
After a frame on the all-zero history row 0 is `[1.5, 1.5, 1.5, 1.5]`; one
callback on the batch `[1.0]` makes the window `[0, 0, 0, 1.0]`; the next frame
gives row 0 = `[1.5, 1.5, 1.5, 16.5]` and row 1 = `[1.5, 1.5, 1.5, 16.5]`, which
is the row 0 just computed and not the row 0 of the frame before.  Hence "row
`i` after the frame equals row `i - 1` before the frame for every `i` in
`1..N-1`" is false at `i = 1`, `j = 3`. -/
theorem display_row_one_counterexample :
    rowHeights 4 loudState 0 = [F32.fin 1.5, F32.fin 1.5, F32.fin 1.5, F32.fin 1.5]
    ∧ window 4 loudState = [F32.fin 0, F32.fin 0, F32.fin 0, F32.fin 1.0]
    ∧ rowHeights 4 (display 4 loudState) 0
        = [F32.fin 1.5, F32.fin 1.5, F32.fin 1.5, F32.fin 16.5]
    ∧ rowHeights 4 (display 4 loudState) 1
        = [F32.fin 1.5, F32.fin 1.5, F32.fin 1.5, F32.fin 16.5]
    ∧ rowHeights 4 (display 4 loudState) 1
        ≠ [F32.fin 1.5, F32.fin 1.5, F32.fin 1.5, F32.fin 1.5]
    ∧ ¬ (∀ i j, 1 ≤ i → i < 4 → j < 4 →
          (display 4 loudState).ctrlpoints i j 1 = loudState.ctrlpoints (i - 1) j 1) := by
  refine ⟨by decide!, by decide!, by decide!, by decide!, by decide!, ?_⟩
  intro h
  have h3 := h 1 3 (by decide) (by decide) (by decide)
  exact absurd h3 (by decide!)

/-- Claim C1, amended: for every row `i` in `2..N-1` and every column `j`, the
height at `ctrlpoints[i][j]` after one frame equals the height `ctrlpoints[i-1][j]`
held before the frame; row 1 after the frame equals the row 0 written in that
same frame. -/
theorem display_shifts_deeper_rows (N : Nat) (s : State) (i j : Nat) (hi : 2 ≤ i) (hiN : i < N)
    (hj : j < N) :
    (display N s).ctrlpoints i j 1 = s.ctrlpoints (i - 1) j 1
    ∧ (display N s).ctrlpoints 1 j 1 = (display N s).ctrlpoints 0 j 1 := by
  constructor
  · exact display_height_deeper N s i j hi hiN hj
  · rw [display_height_front N s 1 j (le_refl _) (by omega) hj,
      display_height_front N s 0 j (by omega) (by omega) hj]

/-- Claim C1, amended, on the four-column scenario: after the second frame
row 0 and row 1 are both `[1.5, 1.5, 1.5, 16.5]`, and row 2 is the row 1 from
before that frame, `[1.5, 1.5, 1.5, 1.5]`. -/
theorem display_shifts_deeper_rows_witness :
    (2 ≤ 2 ∧ 2 < 4 ∧ 3 < 4)
    ∧ ((display 4 loudState).ctrlpoints 2 3 1 = loudState.ctrlpoints (2 - 1) 3 1
      ∧ (display 4 loudState).ctrlpoints 1 3 1 = (display 4 loudState).ctrlpoints 0 3 1)
    ∧ rowHeights 4 loudState 1 = [F32.fin 1.5, F32.fin 1.5, F32.fin 1.5, F32.fin 1.5]
    ∧ rowHeights 4 (display 4 loudState) 0
        = [F32.fin 1.5, F32.fin 1.5, F32.fin 1.5, F32.fin 16.5]
    ∧ rowHeights 4 (display 4 loudState) 1
        = [F32.fin 1.5, F32.fin 1.5, F32.fin 1.5, F32.fin 16.5]
    ∧ rowHeights 4 (display 4 loudState) 2
        = [F32.fin 1.5, F32.fin 1.5, F32.fin 1.5, F32.fin 1.5] :=
  ⟨by decide,
    display_shifts_deeper_rows 4 loudState 2 3 (by decide) (by decide) (by decide),
    by decide!, by decide!, by decide!, by decide!⟩

/-! ## Claim C2: the window after at least `N` writes -/

/-- Claim C2: from any state with cursor below `N`, after `k ≥ N` audio
callbacks on non-empty batches (no frame in between), the window read by
`display`, slot `(cursor + j) % N` for `j = 0..N-1`, is the list of the `N`
most recently written loudness values in write order, oldest first. -/
theorem window_after_writes (N : Nat) (s : State) (bs : List Batch)
    (hc : s.bufferIndex < N) (hk : N ≤ bs.length) (_hne : ∀ b ∈ bs, 0 < b.nBufferFrames) :
    window N (runAudio N s bs)
      = (bs.drop (bs.length - N)).map (fun b => localAmplitude b.inputBuffer b.nBufferFrames) := by
  apply List.ext_get
  · rw [window_length, List.length_map, List.length_drop]
    omega
  · intro j h1 h2
    have hj : j < N := by rwa [window_length] at h1
    have hm : bs.length - N + j < bs.length := by omega
    simp only [window, List.get_eq_getElem, List.getElem_map, List.getElem_range,
      List.getElem_drop]
    rw [runAudio_bufferIndex N s bs hc, Nat.mod_add_mod,
      show s.bufferIndex + bs.length + j = s.bufferIndex + (bs.length - N + j) + N by omega,
      Nat.add_mod_right, runAudio_recent N s bs hc (bs.length - N + j) hm (by omega)]
    rfl

/-- Claim C2 on a concrete run: five writes into a four-slot ring, loudness
values `8, 1, 2, 3, 4` in write order; the window is `[1, 2, 3, 4]`. -/
theorem window_after_writes_witness :
    ((initialState 4).bufferIndex < 4 ∧ 4 ≤ fiveBatches.length)
    ∧ window 4 (runAudio 4 (initialState 4) fiveBatches)
        = (fiveBatches.drop (fiveBatches.length - 4)).map
            (fun b => localAmplitude b.inputBuffer b.nBufferFrames)
    ∧ window 4 (runAudio 4 (initialState 4) fiveBatches)
        = [F32.fin 1, F32.fin 2, F32.fin 3, F32.fin 4] := by
  refine ⟨⟨by decide, by decide⟩, window_after_writes 4 (initialState 4) fiveBatches (by decide)
    (by decide) ?_, by decide!⟩
  intro b hb
  simp only [fiveBatches, fourBatches, List.mem_cons, List.mem_singleton, List.not_mem_nil,
    or_false] at hb
  rcases hb with h | h | h | h | h <;> subst h <;> decide

/-! ## Claim C3: the empty batch -/

/-- Claim C3, as stated, fails: on an empty batch (`nBufferFrames = 0`) the
callback performs the division `0.0f / 0` and its store-and-advance step.
From the initial four-slot state, slot `0` changes from `0` to a NaN and the
cursor moves from `0` to `1`, so "every slot and the cursor are unchanged" is
false. -/
theorem audioCallback_empty_batch_counterexample :
    (initialState 4).bufferIndex = 0
    ∧ (initialState 4).amplitudeBuffer 0 = F32.fin 0
    ∧ (audioCallback 4 (fun _ => F32.fin 0) 0 (initialState 4)).amplitudeBuffer 0 = F32.nan
    ∧ (audioCallback 4 (fun _ => F32.fin 0) 0 (initialState 4)).bufferIndex = 1
    ∧ ¬ (∀ i, i < 4 →
          (audioCallback 4 (fun _ => F32.fin 0) 0 (initialState 4)).amplitudeBuffer i
            = (initialState 4).amplitudeBuffer i)
    ∧ ¬ ((audioCallback 4 (fun _ => F32.fin 0) 0 (initialState 4)).bufferIndex
            = (initialState 4).bufferIndex) := by
  refine ⟨rfl, by decide!, by decide!, rfl, ?_, by decide⟩
  intro h
  exact absurd (h 0 (by decide)) (by decide!)

/-- Claim C3, amended: on an empty batch the callback does not reject; it
stores the NaN produced by `0.0f / 0` into slot `c`, the cursor advances to
`(c + 1) % N` (which differs from `c` when `N ≥ 2`), every history slot other
than slot `c` keeps its value, and the grid is untouched. -/
theorem audioCallback_empty_batch (N : Nat) (s : State) (inputBuffer : Nat → F32)
    (hc : s.bufferIndex < N) :
    (audioCallback N inputBuffer 0 s).amplitudeBuffer s.bufferIndex = F32.nan
    ∧ (audioCallback N inputBuffer 0 s).bufferIndex = (s.bufferIndex + 1) % N
    ∧ (2 ≤ N → (audioCallback N inputBuffer 0 s).bufferIndex ≠ s.bufferIndex)
    ∧ (∀ i, i ≠ s.bufferIndex →
        (audioCallback N inputBuffer 0 s).amplitudeBuffer i = s.amplitudeBuffer i)
    ∧ (audioCallback N inputBuffer 0 s).ctrlpoints = s.ctrlpoints := by
  refine ⟨?_, rfl, ?_, ?_, rfl⟩
  · rw [audioCallback_amplitudeBuffer, if_pos rfl]
    show fdiv (lit 0.0) (ofInt 0) = F32.nan
    decide!
  · intro hN
    rw [audioCallback_bufferIndex]
    exact add_mod_ne_self N s.bufferIndex 1 hc (by omega) (by omega)
  · intro i hi
    rw [audioCallback_amplitudeBuffer, if_neg hi]

/-- Claim C3, amended, on a concrete state: with cursor `1` in a four-slot ring
an empty batch stores a NaN in slot `1` (which held `0`), moves the cursor to
`2` and leaves slot `0` (value `1`) alone. -/
theorem audioCallback_empty_batch_witness :
    loudState.bufferIndex < 4
    ∧ loudState.amplitudeBuffer 1 = F32.fin 0
    ∧ (audioCallback 4 (fun _ => F32.fin 0) 0 loudState).amplitudeBuffer loudState.bufferIndex
        = F32.nan
    ∧ (audioCallback 4 (fun _ => F32.fin 0) 0 loudState).bufferIndex = 2
    ∧ (audioCallback 4 (fun _ => F32.fin 0) 0 loudState).bufferIndex ≠ loudState.bufferIndex
    ∧ (audioCallback 4 (fun _ => F32.fin 0) 0 loudState).amplitudeBuffer 0
        = loudState.amplitudeBuffer 0
    ∧ loudState.amplitudeBuffer 0 = F32.fin 1 := by
  have h := audioCallback_empty_batch 4 loudState (fun _ => F32.fin 0) (by decide)
  exact ⟨by decide, by decide!, h.1, h.2.1, h.2.2.1 (by decide), h.2.2.2.1 0 (by decide),
    by decide!⟩

/-! ## Claim C7: one slot per callback -/

/-- Claim C7: from a state with cursor `c < N`, one callback on a non-empty
batch leaves every history slot other than `c` unchanged, writes the loudness
into slot `c`, and moves the cursor to `(c + 1) % N`, which is below `N`; over
`N` consecutive callbacks every slot below `N` is the write position of exactly
one of them. -/
theorem audioCallback_one_slot (N : Nat) (s : State) (inputBuffer : Nat → F32) (L : Nat)
    (hc : s.bufferIndex < N) (_hL : 0 < L) :
    (∀ i, i ≠ s.bufferIndex →
        (audioCallback N inputBuffer L s).amplitudeBuffer i = s.amplitudeBuffer i)
    ∧ (audioCallback N inputBuffer L s).amplitudeBuffer s.bufferIndex
        = localAmplitude inputBuffer L
    ∧ (audioCallback N inputBuffer L s).bufferIndex = (s.bufferIndex + 1) % N
    ∧ (audioCallback N inputBuffer L s).bufferIndex < N
    ∧ (∀ bs : List Batch, bs.length = N → (∀ b ∈ bs, 0 < b.nBufferFrames) →
        ∀ slot, slot < N →
          ∃! t, t < N ∧ (runAudio N s (bs.take t)).bufferIndex = slot) := by
  refine ⟨?_, ?_, rfl, Nat.mod_lt _ (by omega), ?_⟩
  · intro i hi
    rw [audioCallback_amplitudeBuffer, if_neg hi]
  · rw [audioCallback_amplitudeBuffer, if_pos rfl]
  · intro bs hlen _ slot hslot
    have hidx : ∀ t, t < N → (runAudio N s (bs.take t)).bufferIndex = (s.bufferIndex + t) % N := by
      intro t ht
      rw [runAudio_bufferIndex N s _ hc, List.length_take, hlen, Nat.min_eq_left (le_of_lt ht)]
    refine ⟨(slot + (N - s.bufferIndex)) % N, ⟨Nat.mod_lt _ (by omega), ?_⟩, ?_⟩
    · rw [hidx _ (Nat.mod_lt _ (by omega)), Nat.add_mod_mod,
        show s.bufferIndex + (slot + (N - s.bufferIndex)) = slot + N by omega,
        Nat.add_mod_right, Nat.mod_eq_of_lt hslot]
    · rintro t ⟨ht, hteq⟩
      rw [hidx t ht] at hteq
      have h1 : (s.bufferIndex + t) % N
          = (s.bufferIndex + (slot + (N - s.bufferIndex))) % N := by
        rw [hteq, show s.bufferIndex + (slot + (N - s.bufferIndex)) = slot + N by omega,
          Nat.add_mod_right, Nat.mod_eq_of_lt hslot]
      have h2 : t % N = (slot + (N - s.bufferIndex)) % N := Nat.ModEq.add_left_cancel' _ h1
      rwa [Nat.mod_eq_of_lt ht] at h2

/-- Claim C7 on a concrete state: with cursor `1` in a four-slot ring a
callback leaves slot `0` alone and moves the cursor to `2`; among four
consecutive callbacks exactly one writes slot `0`. -/
theorem audioCallback_one_slot_witness :
    (loudState.bufferIndex < 4 ∧ 0 < 2)
    ∧ (audioCallback 4 (fun _ => F32.fin 5) 2 loudState).amplitudeBuffer 0
        = loudState.amplitudeBuffer 0
    ∧ (audioCallback 4 (fun _ => F32.fin 5) 2 loudState).bufferIndex
        = (loudState.bufferIndex + 1) % 4
    ∧ (∃! t, t < 4 ∧ (runAudio 4 loudState (fourBatches.take t)).bufferIndex = 0) := by
  have h := audioCallback_one_slot 4 loudState (fun _ => F32.fin 5) 2 (by decide) (by decide)
  refine ⟨⟨by decide, by decide⟩, h.1 0 (by decide), h.2.2.1, h.2.2.2.2 fourBatches rfl ?_ 0
    (by decide)⟩
  intro b hb
  simp only [fourBatches, List.mem_cons, List.mem_singleton, List.not_mem_nil, or_false] at hb
  rcases hb with h | h | h | h <;> subst h <;> decide

/-! ## Claim C4: row 0 after one frame -/

/-- Claim C4, as stated, fails in binary32.  With `W[3] = 2.0` the stored
height of row 0, column 3 is `31.4999981` (`16515071 / 524288`), not
`(2.0 + 0.1) * 15 = 31.5`; and with `W[3] = 1.23333335`, a binary32 value above
`37/30`, the stored height is exactly `20.0`, which does not exceed the
divisor. -/
theorem display_first_line_counterexample :
    veryLoudState.amplitudeBuffer ((veryLoudState.bufferIndex + 3) % 4) = F32.fin 2
    ∧ (display 4 veryLoudState).ctrlpoints 0 3 1 = F32.fin (16515071 / 524288)
    ∧ (display 4 veryLoudState).ctrlpoints 0 3 1 ≠ F32.fin ((2 + 0.1) * 15)
    ∧ thresholdState.amplitudeBuffer ((thresholdState.bufferIndex + 3) % 4)
        = F32.fin (5172975 / 4194304)
    ∧ (37 : ℚ) / 30 < 5172975 / 4194304
    ∧ (display 4 thresholdState).ctrlpoints 0 3 1 = F32.fin 20 := by
  refine ⟨by decide!, by decide!, by decide!, by decide!, by norm_num, by decide!⟩

/-- Claim C4, amended: after one frame the height of row 0 at every column
`j < N` is the binary32 value of `(W[j] + 0.1f) * 15.0f`, with `W[j]` the
history slot `(cursor + j) % N`; as a list, row 0 is the window mapped by that
expression.  The stored height is not clamped: for a finite `W[j]` it exceeds
the colour divisor `20` when `W[j] ≥ 1.2333335` (`10345951 / 8388608`) and does
not when `W[j] ≤ 1.23333335` (`5172975 / 4194304`, the next smaller binary32
value). -/
theorem display_first_line (N : Nat) (s : State) (j : Nat) (hj : j < N) :
    (display N s).ctrlpoints 0 j 1
        = fmul (fadd (s.amplitudeBuffer ((s.bufferIndex + j) % N)) (lit 0.1)) (lit 15.0)
    ∧ rowHeights N (display N s) 0 = (window N s).map heightOf
    ∧ (∀ w : ℚ, s.amplitudeBuffer ((s.bufferIndex + j) % N) = F32.fin w →
        10345951 / 8388608 ≤ w → flt (F32.fin 20) ((display N s).ctrlpoints 0 j 1) = true)
    ∧ (∀ w : ℚ, s.amplitudeBuffer ((s.bufferIndex + j) % N) = F32.fin w →
        w ≤ 5172975 / 4194304 → flt (F32.fin 20) ((display N s).ctrlpoints 0 j 1) = false) := by
  have h0 : (display N s).ctrlpoints 0 j 1
      = heightOf (s.amplitudeBuffer ((s.bufferIndex + j) % N)) :=
    display_height_front N s 0 j (by omega) (by omega) hj
  refine ⟨h0, rowHeights_display_zero N s, ?_, ?_⟩
  · intro w hw hge
    rw [h0, hw]
    exact heightOf_above w hge
  · intro w hw hle
    rw [h0, hw]
    exact heightOf_below w hle

/-- Claim C4, amended, on concrete states: with loudness `2.0` in the newest
window position the stored height of row 0, column 3 is `31.4999981`, above the
divisor and kept as is; with loudness `1.23333335` it is exactly `20`. -/
theorem display_first_line_witness :
    3 < 4
    ∧ (display 4 veryLoudState).ctrlpoints 0 3 1
        = fmul (fadd (veryLoudState.amplitudeBuffer ((veryLoudState.bufferIndex + 3) % 4))
            (lit 0.1)) (lit 15.0)
    ∧ (display 4 veryLoudState).ctrlpoints 0 3 1 = F32.fin (16515071 / 524288)
    ∧ flt (F32.fin 20) ((display 4 veryLoudState).ctrlpoints 0 3 1) = true
    ∧ flt (F32.fin 20) ((display 4 thresholdState).ctrlpoints 0 3 1) = false := by
  have h := display_first_line 4 veryLoudState 3 (by decide)
  have h2 := display_first_line 4 thresholdState 3 (by decide)
  exact ⟨by decide, h.1, by decide!, h.2.2.1 2 (by decide!) (by norm_num),
    h2.2.2.2 (5172975 / 4194304) (by decide!) (le_refl _)⟩

/-! ## Claim C6: steady state -/

/-- Claim C6, as stated, fails in binary32: with `W[3] = 2.0`, after four
frames of a four-column grid the deepest row holds `31.4999981`
(`16515071 / 524288`) in column 3, not `(2.0 + 0.1) * 15 = 31.5`. -/
theorem display_steady_state_counterexample :
    veryLoudState.amplitudeBuffer ((veryLoudState.bufferIndex + 3) % 4) = F32.fin 2
    ∧ (Nat.iterate (display 4) 4 veryLoudState).ctrlpoints 3 3 1 = F32.fin (16515071 / 524288)
    ∧ (Nat.iterate (display 4) 4 veryLoudState).ctrlpoints 3 3 1 ≠ F32.fin ((2 + 0.1) * 15) := by
  refine ⟨by decide!, by decide!, by decide!⟩

/-- Claim C6, amended: with the history untouched between frames, after `N`
consecutive frames from any grid every row `i < N` and column `j < N` holds the
binary32 value of `(W[j] + 0.1f) * 15.0f`, where `W[j]` is the slot
`(cursor + j) % N`; every row is the mapped window. -/
theorem display_steady_state (N : Nat) (s : State) (i j : Nat) (hi : i < N) (hj : j < N) :
    (Nat.iterate (display N) N s).ctrlpoints i j 1
        = fmul (fadd (s.amplitudeBuffer ((s.bufferIndex + j) % N)) (lit 0.1)) (lit 15.0)
    ∧ rowHeights N (Nat.iterate (display N) N s) i = (window N s).map heightOf := by
  refine ⟨iterate_display_rows N N s i j hi hi hj, ?_⟩
  simp only [rowHeights, window, List.map_map]
  apply List.map_congr_left
  intro b hb
  exact iterate_display_rows N N s i b hi hi (List.mem_range.mp hb)

/-- Claim C6, amended, on a concrete state: after four frames on the window
`[0, 0, 0, 1]` every row is `[1.5, 1.5, 1.5, 16.5]`. -/
theorem display_steady_state_witness :
    (3 < 4 ∧ 3 < 4)
    ∧ (Nat.iterate (display 4) 4 loudState).ctrlpoints 3 3 1
        = fmul (fadd (loudState.amplitudeBuffer ((loudState.bufferIndex + 3) % 4)) (lit 0.1))
            (lit 15.0)
    ∧ rowHeights 4 (Nat.iterate (display 4) 4 loudState) 3
        = [F32.fin 1.5, F32.fin 1.5, F32.fin 1.5, F32.fin 16.5]
    ∧ rowHeights 4 (Nat.iterate (display 4) 4 loudState) 0
        = [F32.fin 1.5, F32.fin 1.5, F32.fin 1.5, F32.fin 16.5] :=
  ⟨by decide, (display_steady_state 4 loudState 3 3 (by decide) (by decide)).1, by decide!,
    by decide!⟩

/-! ## Claim C10: the newest slice appears twice -/

/-- Claim C10, as stated, fails in binary32 in its value part: with
`W[3] = 2.0` rows 0 and 1 both hold `31.4999981` (`16515071 / 524288`) in column
3 after a frame, not `(2.0 + 0.1) * 15 = 31.5`. -/
theorem display_newest_slice_twice_counterexample :
    veryLoudState.amplitudeBuffer ((veryLoudState.bufferIndex + 3) % 4) = F32.fin 2
    ∧ (display 4 veryLoudState).ctrlpoints 1 3 1 = F32.fin (16515071 / 524288)
    ∧ (display 4 veryLoudState).ctrlpoints 1 3 1 = (display 4 veryLoudState).ctrlpoints 0 3 1
    ∧ (display 4 veryLoudState).ctrlpoints 1 3 1 ≠ F32.fin ((2 + 0.1) * 15) := by
  refine ⟨by decide!, by decide!, by decide!, by decide!⟩

/-- Claim C10, amended: `display` writes row 0 before the high-to-low
propagation, so for `N ≥ 2` and any grid, after a frame row 1 equals the row 0
of that same frame, the binary32 value of `(W[j] + 0.1f) * 15.0f`, in every
column, and every row `i` in `2..N-1` equals row `i - 1` from before the frame.
The heights that rows `0` and `N - 1` held before the frame are copied nowhere:
two states that differ only in those heights give the same heights after the
frame. -/
theorem display_newest_slice_twice (N : Nat) (hN : 2 ≤ N) (s t : State)
    (hbuf : t.amplitudeBuffer = s.amplitudeBuffer) (hidx : t.bufferIndex = s.bufferIndex)
    (hrows : ∀ a b, 1 ≤ a → a + 2 ≤ N → b < N → t.ctrlpoints a b 1 = s.ctrlpoints a b 1)
    (i j : Nat) (hi : i < N) (hj : j < N) :
    (display N s).ctrlpoints 0 j 1
        = fmul (fadd (s.amplitudeBuffer ((s.bufferIndex + j) % N)) (lit 0.1)) (lit 15.0)
    ∧ (display N s).ctrlpoints 1 j 1 = (display N s).ctrlpoints 0 j 1
    ∧ (2 ≤ i → (display N s).ctrlpoints i j 1 = s.ctrlpoints (i - 1) j 1)
    ∧ (display N t).ctrlpoints i j 1 = (display N s).ctrlpoints i j 1 := by
  have h0 := display_height_front N s 0 j (by omega) (by omega) hj
  have h1 := display_height_front N s 1 j (by omega) (by omega) hj
  refine ⟨h0, ?_, ?_, ?_⟩
  · rw [h0, h1]
  · intro h2
    exact display_height_deeper N s i j h2 hi hj
  · by_cases h2 : i ≤ 1
    · rw [display_height_front N t i j h2 hi hj, display_height_front N s i j h2 hi hj]
      simp only [mappedHeight, hbuf, hidx]
    · rw [display_height_deeper N t i j (by omega) hi hj,
        display_height_deeper N s i j (by omega) hi hj]
      exact hrows (i - 1) j (by omega) (by omega) hj

/-- Claim C10, amended, on a concrete pair of states: `loudStateAltered`
differs from `loudState` in the heights of rows `0` and `3`; after a frame both
have the same height at row 3, column 2, and row 1 equals row 0. -/
theorem display_newest_slice_twice_witness :
    (2 ≤ 4 ∧ (3 < 4 ∧ 2 < 4))
    ∧ loudState.ctrlpoints 0 2 1 ≠ loudStateAltered.ctrlpoints 0 2 1
    ∧ loudState.ctrlpoints 3 2 1 ≠ loudStateAltered.ctrlpoints 3 2 1
    ∧ ((display 4 loudState).ctrlpoints 0 2 1
          = fmul (fadd (loudState.amplitudeBuffer ((loudState.bufferIndex + 2) % 4)) (lit 0.1))
              (lit 15.0)
      ∧ (display 4 loudState).ctrlpoints 1 2 1 = (display 4 loudState).ctrlpoints 0 2 1
      ∧ (2 ≤ 3 → (display 4 loudState).ctrlpoints 3 2 1 = loudState.ctrlpoints (3 - 1) 2 1)
      ∧ (display 4 loudStateAltered).ctrlpoints 3 2 1 = (display 4 loudState).ctrlpoints 3 2 1) := by
  refine ⟨by decide, by decide!, by decide!,
    display_newest_slice_twice 4 (by decide) loudState loudStateAltered rfl rfl ?_ 3 2 (by decide)
      (by decide)⟩
  intro a b h1 h2 _
  have h3 : ¬ ((a = 0 ∨ a = 3) ∧ 1 = 1) := by omega
  show (if (a = 0 ∨ a = 3) ∧ 1 = 1 then F32.fin 99 else loudState.ctrlpoints a b 1) = _
  rw [if_neg h3]

/-! ## Claim C9: the planar layout -/

theorem half_span : fdiv (fneg GRID_SPAN) (ofInt 2) = F32.fin (-5) := by decide!

theorem gridStep_eq (N : Nat) : gridStep N = fdiv (F32.fin 10) (ofInt ((N : Int) - 1)) := by
  have h : GRID_SPAN = F32.fin 10 := by decide!
  rw [gridStep, h]

/-- Claim C9, as stated, fails in binary32 in its coordinate formula: in a
four-column grid the point at row 1, column 1 has `x = z = -1.66666675`
(`-6990507 / 4194304`), not `-5 + 10 / 3`, and the point at column 2 has
`x = 1.66666651` (`3495253 / 2097152`), not `-5 + 20 / 3`. -/
theorem display_keeps_layout_counterexample :
    (initialState 4).ctrlpoints 1 1 0 = F32.fin (-6990507 / 4194304)
    ∧ (initialState 4).ctrlpoints 1 1 0 ≠ F32.fin (-5 + 1 * 10 / (4 - 1))
    ∧ (initialState 4).ctrlpoints 1 1 2 = F32.fin (-6990507 / 4194304)
    ∧ (initialState 4).ctrlpoints 1 1 2 ≠ F32.fin (-5 + 1 * 10 / (4 - 1))
    ∧ (initialState 4).ctrlpoints 1 2 0 = F32.fin (3495253 / 2097152)
    ∧ (initialState 4).ctrlpoints 1 2 0 ≠ F32.fin (-5 + 2 * 10 / (4 - 1)) := by
  refine ⟨by decide!, by decide!, by decide!, by decide!, by decide!, by decide!⟩

/-- Claim C9, amended: a frame changes only heights: the x and z components of
every point are the same after `display` as before.  Hence, once
`generateControlPoints` has run, every point with `i, j < N` keeps, through any
sequence of frames and audio callbacks (a run of frames only is the case
`es = List.replicate t Event.frame`), the binary32 values
`x = -5.0f + j * (10.0f / (N - 1))` and `z = -5.0f + i * (10.0f / (N - 1))`, each
operation rounded. -/
theorem display_keeps_layout (N : Nat) (s : State) (es : List Event)
    (i j : Nat) (hi : i < N) (hj : j < N) :
    (∀ a b, (display N s).ctrlpoints a b 0 = s.ctrlpoints a b 0
      ∧ (display N s).ctrlpoints a b 2 = s.ctrlpoints a b 2)
    ∧ (run N { s with ctrlpoints := generateControlPoints N s.ctrlpoints } es).ctrlpoints i j 0
        = fadd (F32.fin (-5)) (fmul (ofInt (j : Int)) (fdiv (F32.fin 10) (ofInt ((N : Int) - 1))))
    ∧ (run N { s with ctrlpoints := generateControlPoints N s.ctrlpoints } es).ctrlpoints i j 2
        = fadd (F32.fin (-5)) (fmul (ofInt (i : Int)) (fdiv (F32.fin 10) (ofInt ((N : Int) - 1)))) := by
  refine ⟨fun a b => ⟨step_ctrlpoints_x N s Event.frame a b, step_ctrlpoints_z N s Event.frame a b⟩,
    ?_, ?_⟩
  · rw [(run_ctrlpoints_xz N _ es i j).1]
    show generateControlPoints N s.ctrlpoints i j 0 = _
    rw [generateControlPoints_apply, if_pos ⟨hi, hj, by omega⟩, pointValue, if_pos rfl, half_span,
      gridStep_eq]
  · rw [(run_ctrlpoints_xz N _ es i j).2]
    show generateControlPoints N s.ctrlpoints i j 2 = _
    have h0 : ¬ (2 = 0) := by decide
    have h1 : ¬ (2 = 1) := by decide
    rw [generateControlPoints_apply, if_pos ⟨hi, hj, by omega⟩, pointValue, if_neg h0, if_neg h1,
      half_span, gridStep_eq]

/-- Claim C9, amended, on concrete runs: in a four-column grid, after a frame, a
callback and another frame, the point at row 1, column 2 still has
`x = 1.66666651` and `z = -1.66666675`; at the shipped size `GRID_SIZE = 75` the point in
column 1 has `x = -4.86486483`. -/
theorem display_keeps_layout_witness :
    (1 < 4 ∧ 2 < 4)
    ∧ (run 4 { loudState with ctrlpoints := generateControlPoints 4 loudState.ctrlpoints }
          [Event.frame, Event.audio (fun _ => F32.fin 1) 1, Event.frame]).ctrlpoints 1 2 0
        = F32.fin (3495253 / 2097152)
    ∧ (run 4 { loudState with ctrlpoints := generateControlPoints 4 loudState.ctrlpoints }
          [Event.frame, Event.audio (fun _ => F32.fin 1) 1, Event.frame]).ctrlpoints 1 2 2
        = F32.fin (-6990507 / 4194304)
    ∧ (run GRID_SIZE
          { loudState with ctrlpoints := generateControlPoints GRID_SIZE loudState.ctrlpoints }
          [Event.frame]).ctrlpoints 0 1 0
        = F32.fin (-10202361 / 2097152) := by
  have h := display_keeps_layout 4 loudState
    [Event.frame, Event.audio (fun _ => F32.fin 1) 1, Event.frame] 1 2 (by decide) (by decide)
  have h75 := display_keeps_layout GRID_SIZE loudState [Event.frame] 0 1 (by decide) (by decide)
  refine ⟨by decide, ?_, ?_, ?_⟩
  · rw [h.2.1]
    decide!
  · rw [h.2.2]
    decide!
  · rw [h75.2.1]
    decide!

/-! ## Claim C5: the stored loudness -/

theorem round32_ne_nan (q : ℚ) : round32 q ≠ F32.nan := by
  unfold round32
  split_ifs <;> simp

theorem lit_zero : lit 0.0 = F32.fin 0 := by decide!

theorem nonNeg_round32 (q : ℚ) (hq : 0 ≤ q) : NonNeg (round32 q) := by
  rcases round32_lower 0 0 q round32_zero hq with e | ⟨r, e, hr⟩
  · exact Or.inl e
  · exact Or.inr ⟨r, e, hr⟩

theorem nonNeg_fabs (x : F32) (hx : x ≠ F32.nan) : NonNeg (fabs x) := by
  cases x with
  | nan => exact absurd rfl hx
  | inf s => exact Or.inl rfl
  | fin a => exact Or.inr ⟨|a|, rfl, abs_nonneg a⟩

theorem nonNeg_fadd (x y : F32) (hx : NonNeg x) (hy : NonNeg y) : NonNeg (fadd x y) := by
  rcases hx with hx | ⟨a, hx, ha⟩ <;> rcases hy with hy | ⟨b, hy, hb⟩ <;> subst hx hy
  · exact Or.inl rfl
  · exact Or.inl rfl
  · exact Or.inl rfl
  · exact nonNeg_round32 (a + b) (add_nonneg ha hb)

theorem nonNeg_fdiv (x : F32) (l : ℚ) (hx : NonNeg x) (hl : 1 ≤ l) : NonNeg (fdiv x (F32.fin l)) := by
  have hl0 : l ≠ 0 := by
    intro h
    rw [h] at hl
    norm_num at hl
  have hneg : ¬ l < 0 := by
    intro h
    linarith
  rcases hx with hx | ⟨a, hx, ha⟩ <;> subst hx
  · left
    simp [fdiv, hneg]
  · show NonNeg (if l = 0 then (if a = 0 then F32.nan else F32.inf (decide (a < 0)))
      else round32 (a / l))
    rw [if_neg hl0]
    exact nonNeg_round32 _ (div_nonneg ha (by linarith))

theorem ofInt_frameCount (L : Nat) (hL : 0 < L) (hL32 : L < 2 ^ 32) :
    ∃ l : ℚ, ofInt (L : Int) = F32.fin l ∧ 1 ≤ l := by
  have e1 : round32 1 = F32.fin 1 := by decide!
  have e2 : round32 4294967296 = F32.fin 4294967296 := by decide!
  have h1 : (1 : ℚ) ≤ ((L : Int) : ℚ) := by exact_mod_cast hL
  have h2 : (((L : Int) : ℚ)) ≤ 4294967296 := by
    have : (L : ℚ) ≤ 4294967296 := by exact_mod_cast (le_of_lt hL32)
    exact_mod_cast this
  rcases round32_between 1 1 4294967296 4294967296 _ e1 e2 h1 h2 with ⟨r, e, hr, _⟩
  exact ⟨r, e, hr⟩

theorem nonNeg_accumulate (inputBuffer : Nat → F32) (n : Nat)
    (h : ∀ i, i < n → inputBuffer i ≠ F32.nan) :
    NonNeg (loopUp (fun i acc => fadd acc (fabs (inputBuffer i))) n (lit 0.0)) := by
  induction n with
  | zero =>
    rw [loopUp, lit_zero]
    exact Or.inr ⟨0, rfl, le_refl _⟩
  | succ n ih =>
    rw [loopUp]
    exact nonNeg_fadd _ _ (ih (fun i hi => h i (by omega))) (nonNeg_fabs _ (h n (by omega)))

theorem accumulate_zero (n : Nat) :
    loopUp (fun _ acc => fadd acc (fabs (F32.fin 0))) n (lit 0.0) = F32.fin 0 := by
  induction n with
  | zero => rw [loopUp, lit_zero]
  | succ n ih =>
    rw [loopUp, ih]
    decide!

theorem fabs_fneg (x : F32) : fabs (fneg x) = fabs x := by
  cases x with
  | nan => rfl
  | inf s => rfl
  | fin a => simp [fabs, fneg]

/-- Claim C5, as stated, fails in binary32: the stored loudness is a rounded
value.  The batch `[1, 0, 0]` stores `0.333333343` (`11184811 / 33554432`), not
`1/3`; the batch `[0.1f, 0.2f, 0.3f]` stores `0.200000003`
(`13421773 / 67108864`), not the mean `80530639 / 402653184` of its samples;
a full batch of `BUFFER_FRAMES = 512` samples `0.1f` stores `0.09999959`
(`6710859 / 67108864`), not `0.1f`. -/
theorem audioCallback_stores_mean_abs_counterexample :
    (audioCallback 4 (fun i => if i = 0 then F32.fin 1 else F32.fin 0) 3
        (initialState 4)).amplitudeBuffer 0 = F32.fin (11184811 / 33554432)
    ∧ (audioCallback 4 (fun i => if i = 0 then F32.fin 1 else F32.fin 0) 3
        (initialState 4)).amplitudeBuffer 0 ≠ F32.fin ((|1| + |0| + |0|) / 3)
    ∧ (audioCallback 4 (fun i => if i = 0 then lit 0.1 else if i = 1 then lit 0.2 else lit 0.3) 3
        (initialState 4)).amplitudeBuffer 0 = F32.fin (13421773 / 67108864)
    ∧ (audioCallback 4 (fun i => if i = 0 then lit 0.1 else if i = 1 then lit 0.2 else lit 0.3) 3
        (initialState 4)).amplitudeBuffer 0
        ≠ F32.fin ((|13421773 / 134217728| + |13421773 / 67108864| + |5033165 / 16777216|) / 3)
    ∧ (audioCallback 4 (fun _ => lit 0.1) BUFFER_FRAMES (initialState 4)).amplitudeBuffer 0
        = F32.fin (6710859 / 67108864)
    ∧ (audioCallback 4 (fun _ => lit 0.1) BUFFER_FRAMES (initialState 4)).amplitudeBuffer 0
        ≠ lit 0.1 := by
  refine ⟨by decide!, by decide!, by decide!, by decide!, by decide!, by decide!⟩

/-- Claim C5, amended: for a non-empty batch of `L` samples (`L` an
`unsigned int`) the value the callback stores at the cursor is the binary32
left-to-right sum of the `fabs` of the samples, started at `0.0f`, divided in
binary32 by `L` converted to `float`; no smoothing, clipping or windowing is
applied.  It is non-negative (a finite value `≥ 0` or `+inf`) when no sample is
a NaN, it is `0` for the all-zero batch, and it does not change when any subset
of the samples is negated. -/
theorem audioCallback_stores_mean_abs (N : Nat) (s : State) (inputBuffer : Nat → F32) (L : Nat)
    (hL : 0 < L) (hL32 : L < 2 ^ 32) (negated : Nat → Bool) :
    (audioCallback N inputBuffer L s).amplitudeBuffer s.bufferIndex
        = fdiv (absSum inputBuffer L) (ofInt (L : Int))
    ∧ ((∀ i, i < L → inputBuffer i ≠ F32.nan) →
        NonNeg ((audioCallback N inputBuffer L s).amplitudeBuffer s.bufferIndex))
    ∧ (audioCallback N (fun _ => F32.fin 0) L s).amplitudeBuffer s.bufferIndex = F32.fin 0
    ∧ (audioCallback N (fun i => if negated i then fneg (inputBuffer i) else inputBuffer i) L
          s).amplitudeBuffer s.bufferIndex
        = (audioCallback N inputBuffer L s).amplitudeBuffer s.bufferIndex := by
  have hst : ∀ f : Nat → F32, (audioCallback N f L s).amplitudeBuffer s.bufferIndex
      = localAmplitude f L := by
    intro f
    rw [audioCallback_amplitudeBuffer, if_pos rfl]
  obtain ⟨l, hl, hl1⟩ := ofInt_frameCount L hL hL32
  refine ⟨?_, ?_, ?_, ?_⟩
  · rw [hst, localAmplitude_eq]
  · intro hnan
    rw [hst]
    show NonNeg (fdiv _ (ofInt (L : Int)))
    rw [hl]
    exact nonNeg_fdiv _ l (nonNeg_accumulate inputBuffer L hnan) hl1
  · rw [hst]
    show fdiv (loopUp (fun _ acc => fadd acc (fabs (F32.fin 0))) L (lit 0.0)) (ofInt (L : Int))
      = F32.fin 0
    rw [accumulate_zero, hl]
    have hl0 : l ≠ 0 := by
      intro h
      rw [h] at hl1
      norm_num at hl1
    show (if l = 0 then (if (0 : ℚ) = 0 then F32.nan else F32.inf (decide ((0 : ℚ) < 0)))
      else round32 (0 / l)) = F32.fin 0
    rw [if_neg hl0, zero_div, round32_zero]
  · rw [hst, hst]
    have hf : (fun i acc => fadd acc (fabs (if negated i then fneg (inputBuffer i)
        else inputBuffer i))) = (fun i acc => fadd acc (fabs (inputBuffer i))) := by
      funext i acc
      cases negated i
      · rfl
      · simp [fabs_fneg]
    simp only [localAmplitude, hf]

/-- Claim C5, amended, on concrete batches: the batch `[-1, 3]` stores
`(1 + 3) / 2 = 2`, which is non-negative; negating its first sample stores the
same value; the all-zero batch of two samples stores `0`. -/
theorem audioCallback_stores_mean_abs_witness :
    (0 < 2 ∧ 2 < 2 ^ 32)
    ∧ (audioCallback 4 (fun i => if i = 0 then F32.fin (-1) else F32.fin 3) 2
          (initialState 4)).amplitudeBuffer 0 = F32.fin 2
    ∧ NonNeg ((audioCallback 4 (fun i => if i = 0 then F32.fin (-1) else F32.fin 3) 2
          (initialState 4)).amplitudeBuffer (initialState 4).bufferIndex)
    ∧ (audioCallback 4 (fun _ => F32.fin 0) 2 (initialState 4)).amplitudeBuffer
          (initialState 4).bufferIndex = F32.fin 0
    ∧ (audioCallback 4 (fun i => if (i == 0) = true
            then fneg (if i = 0 then F32.fin (-1) else F32.fin 3)
            else (if i = 0 then F32.fin (-1) else F32.fin 3)) 2 (initialState 4)).amplitudeBuffer
          (initialState 4).bufferIndex
        = (audioCallback 4 (fun i => if i = 0 then F32.fin (-1) else F32.fin 3) 2
            (initialState 4)).amplitudeBuffer (initialState 4).bufferIndex := by
  have h := audioCallback_stores_mean_abs 4 (initialState 4)
    (fun i => if i = 0 then F32.fin (-1) else F32.fin 3) 2 (by decide) (by decide)
    (fun i => i == 0)
  refine ⟨⟨by decide, by decide⟩, by decide!, h.2.1 ?_, h.2.2.1, h.2.2.2⟩
  intro i _
  by_cases hi : i = 0
  · simp [hi]
  · simp [hi]

/-! ## Claim C8: brightness -/

theorem lit_fifth : lit 0.2 = F32.fin (13421773 / 67108864) := by decide!

theorem lit_four_fifths : lit 0.8 = F32.fin (13421773 / 16777216) := by decide!

theorem clamp_eq (x : F32) : stdMin (lit 1.0) (stdMax (lit 0.0) x) = F32.fin (clampVal x) := by
  have h1 : lit 1.0 = F32.fin 1 := by decide!
  rw [h1, lit_zero]
  cases x with
  | nan => simp [stdMin, stdMax, flt, clampVal]
  | inf s => cases s <;> simp [stdMin, stdMax, flt, clampVal]
  | fin a =>
    by_cases h0 : 0 < a
    · by_cases h2 : a < 1
      · simp [stdMin, stdMax, flt, clampVal, h0, h2]
      · simp [stdMin, stdMax, flt, clampVal, h0, h2]
    · have h3 : ¬ (1 : ℚ) < 0 := by norm_num
      simp [stdMin, stdMax, flt, clampVal, h0]

theorem clampVal_range (x : F32) : 0 ≤ clampVal x ∧ clampVal x ≤ 1 := by
  cases x with
  | nan => simp [clampVal]
  | inf s => cases s <;> simp [clampVal]
  | fin a =>
    simp only [clampVal]
    split_ifs <;> constructor <;> linarith

theorem clampVal_mono (x y : F32) (h : fle x y = true) : clampVal x ≤ clampVal y := by
  cases x with
  | nan => simp [fle] at h
  | inf s =>
    cases y with
    | nan => simp [fle] at h
    | inf t =>
      cases s <;> cases t <;> simp [fle, clampVal] at h ⊢
    | fin b =>
      cases s with
      | false => simp [fle] at h
      | true =>
        show (0 : ℚ) ≤ (if 0 < b then (if b < 1 then b else 1) else 0)
        split_ifs <;> linarith
  | fin a =>
    cases y with
    | nan => simp [fle] at h
    | inf t =>
      cases t with
      | true => simp [fle] at h
      | false =>
        show (if 0 < a then (if a < 1 then a else 1) else 0) ≤ (1 : ℚ)
        split_ifs <;> linarith
    | fin b =>
      simp [fle] at h
      simp only [clampVal]
      split_ifs <;> linarith

theorem fdiv_twenty_mono (x y : F32) (h : fle x y = true) :
    fle (fdiv x (F32.fin 20)) (fdiv y (F32.fin 20)) = true := by
  have h20 : ¬ ((20 : ℚ) = 0) := by norm_num
  have hr : ∀ q : ℚ, fdiv (F32.fin q) (F32.fin 20) = round32 (q / 20) := by
    intro q
    simp [fdiv]
  have hi : ∀ s : Bool, fdiv (F32.inf s) (F32.fin 20) = F32.inf s := by
    intro s
    cases s <;> decide!
  cases x with
  | nan => simp [fle] at h
  | inf s =>
    cases y with
    | nan => simp [fle] at h
    | inf t => rw [hi, hi]; exact h
    | fin b =>
      simp [fle] at h
      subst h
      rw [hi, hr]
      cases hq : round32 (b / 20) with
      | nan => exact absurd hq (round32_ne_nan _)
      | inf t => rfl
      | fin r => rfl
  | fin a =>
    cases y with
    | nan => simp [fle] at h
    | inf t =>
      simp [fle] at h
      subst h
      rw [hi, hr]
      cases hq : round32 (a / 20) with
      | nan => exact absurd hq (round32_ne_nan _)
      | inf t => cases t <;> rfl
      | fin r => rfl
    | fin b =>
      simp [fle] at h
      rw [hr, hr]
      exact round32_mono _ _ (by linarith)

theorem brightness_eq (h : F32) :
    brightness h = fadd (lit 0.8) (fmul (lit 0.2) (F32.fin (clampVal (fdiv h (lit 20.0))))) := by
  simp only [brightness, clamp_eq]

theorem scaled_clamp (c : ℚ) (h0 : 0 ≤ c) (h1 : c ≤ 1) :
    ∃ d : ℚ, fmul (lit 0.2) (F32.fin c) = F32.fin d ∧ 0 ≤ d ∧ d ≤ 13421773 / 67108864 := by
  rw [lit_fifth]
  show ∃ d : ℚ, round32 (13421773 / 67108864 * c) = F32.fin d ∧ 0 ≤ d ∧ d ≤ 13421773 / 67108864
  have e2 : round32 (13421773 / 67108864) = F32.fin (13421773 / 67108864) := by decide!
  exact round32_between 0 0 (13421773 / 67108864) (13421773 / 67108864) _ round32_zero e2
    (by positivity) (by nlinarith)

theorem brightness_range (h : F32) :
    ∃ r : ℚ, brightness h = F32.fin r ∧ 13421773 / 16777216 ≤ r ∧ r ≤ 1 := by
  obtain ⟨hc0, hc1⟩ := clampVal_range (fdiv h (lit 20.0))
  obtain ⟨d, hd, hd0, hd1⟩ := scaled_clamp _ hc0 hc1
  rw [brightness_eq, hd, lit_four_fifths]
  show ∃ r : ℚ, round32 (13421773 / 16777216 + d) = F32.fin r ∧ 13421773 / 16777216 ≤ r ∧ r ≤ 1
  have e1 : round32 (13421773 / 16777216) = F32.fin (13421773 / 16777216) := by decide!
  have e2 : round32 (13421773 / 16777216 + 13421773 / 67108864) = F32.fin 1 := by decide!
  exact round32_between _ _ _ _ _ e1 e2 (by linarith) (by linarith)

theorem brightness_mono (h k : F32) (hle : fle h k = true) :
    fle (brightness h) (brightness k) = true := by
  have h20 : lit 20.0 = F32.fin 20 := by decide!
  have hm : clampVal (fdiv h (lit 20.0)) ≤ clampVal (fdiv k (lit 20.0)) := by
    rw [h20]
    exact clampVal_mono _ _ (fdiv_twenty_mono h k hle)
  obtain ⟨a0, a1⟩ := clampVal_range (fdiv h (lit 20.0))
  obtain ⟨b0, b1⟩ := clampVal_range (fdiv k (lit 20.0))
  obtain ⟨d, hd, _, _⟩ := scaled_clamp _ a0 a1
  obtain ⟨e, he, _, _⟩ := scaled_clamp _ b0 b1
  have hde : d ≤ e := by
    have hmm := round32_mono (13421773 / 67108864 * clampVal (fdiv h (lit 20.0)))
      (13421773 / 67108864 * clampVal (fdiv k (lit 20.0))) (by nlinarith)
    rw [lit_fifth] at hd he
    have hd2 : round32 (13421773 / 67108864 * clampVal (fdiv h (lit 20.0))) = F32.fin d := hd
    have he2 : round32 (13421773 / 67108864 * clampVal (fdiv k (lit 20.0))) = F32.fin e := he
    rw [hd2, he2] at hmm
    simpa [fle] using hmm
  rw [brightness_eq, brightness_eq, hd, he, lit_four_fifths]
  exact round32_mono _ _ (by linarith)

theorem clampVal_low (h : F32) (hle : h = F32.nan ∨ fle h (F32.fin 0) = true) :
    clampVal (fdiv h (lit 20.0)) = 0 := by
  have h20 : lit 20.0 = F32.fin 20 := by decide!
  rw [h20]
  rcases hle with hn | hle
  · subst hn
    rfl
  · cases h with
    | nan => simp [fle] at hle
    | inf s =>
      cases s with
      | false => simp [fle] at hle
      | true => decide!
    | fin a =>
      simp [fle] at hle
      have hr : fdiv (F32.fin a) (F32.fin 20) = round32 (a / 20) := by simp [fdiv]
      rw [hr]
      rcases round32_upper 0 0 (a / 20) round32_zero (by linarith) with e | ⟨r, e, hr0⟩
      · rw [e]
        rfl
      · rw [e]
        have hn : ¬ 0 < r := not_lt.mpr hr0
        simp [clampVal, hn]

theorem clampVal_high (h : F32) (hge : fle (F32.fin 20) h = true) :
    clampVal (fdiv h (lit 20.0)) = 1 := by
  have h20 : lit 20.0 = F32.fin 20 := by decide!
  have e1 : round32 1 = F32.fin 1 := by decide!
  rw [h20]
  cases h with
  | nan => simp [fle] at hge
  | inf s =>
    cases s with
    | true => simp [fle] at hge
    | false => decide!
  | fin a =>
    simp [fle] at hge
    have hr : fdiv (F32.fin a) (F32.fin 20) = round32 (a / 20) := by simp [fdiv]
    rw [hr]
    rcases round32_lower 1 1 (a / 20) e1 (by linarith) with e | ⟨r, e, hr1⟩
    · rw [e]
      rfl
    · rw [e]
      have hp : 0 < r := by linarith
      have hn : ¬ r < 1 := not_lt.mpr hr1
      simp [clampVal, hp, hn]

/-- Claim C8, as stated, fails in binary32: the brightness is `0.800000012`
(`13421773 / 16777216`) at height `0`, not `0.8`; it is `0.90000004`
(`15099495 / 16777216`) at height `10`, not `0.9`; and it is not linear on
`[0, 20]`: at height `19.999998` (`10485759 / 524288`, below `20`) it is
already exactly `1.0`, where the linear value would be `0.8 + h / 100 < 1`. -/
theorem brightness_mapping_counterexample :
    brightness (F32.fin 0) = F32.fin (13421773 / 16777216)
    ∧ brightness (F32.fin 0) ≠ F32.fin 0.8
    ∧ brightness (F32.fin 10) = F32.fin (15099495 / 16777216)
    ∧ brightness (F32.fin 10) ≠ F32.fin 0.9
    ∧ brightness (F32.fin 10) ≠ F32.fin (0.8 + 0.2 * min 1 (max 0 (10 / 20)))
    ∧ brightness (F32.fin (10485759 / 524288)) = F32.fin 1
    ∧ (0.8 : ℚ) + (10485759 / 524288) / 100 < 1 := by
  refine ⟨by decide!, by decide!, by decide!, by decide!, by decide!, by decide!, by norm_num⟩

/-- Claim C8, amended: the brightness derived from a height `h` is the binary32
value of `0.8f + 0.2f * min(1.0f, max(0.0f, h / 20.0f))`, each operation
rounded.  It is `0.8f` (`13421773 / 16777216`, about `0.800000012`) for every
`h ≤ 0` and for a NaN, exactly `1.0` for every `h ≥ 20`, non-decreasing in `h`,
`0.90000004` at `h = 10`, and it is always a finite value in `[0.8f, 1.0]`,
hence within `[0.8, 1.0]`. -/
theorem brightness_mapping (h k : F32) :
    brightness h
        = fadd (lit 0.8) (fmul (lit 0.2) (stdMin (lit 1.0) (stdMax (lit 0.0) (fdiv h (lit 20.0)))))
    ∧ ((h = F32.nan ∨ fle h (F32.fin 0) = true) → brightness h = F32.fin (13421773 / 16777216))
    ∧ (fle (F32.fin 20) h = true → brightness h = F32.fin 1)
    ∧ (fle h k = true → fle (brightness h) (brightness k) = true)
    ∧ brightness (F32.fin 10) = F32.fin (15099495 / 16777216)
    ∧ (∃ r : ℚ, brightness h = F32.fin r ∧ 13421773 / 16777216 ≤ r ∧ 0.8 ≤ r ∧ r ≤ 1) := by
  refine ⟨rfl, ?_, ?_, brightness_mono h k, by decide!, ?_⟩
  · intro hle
    rw [brightness_eq, clampVal_low h hle]
    decide!
  · intro hge
    rw [brightness_eq, clampVal_high h hge]
    decide!
  · obtain ⟨r, hr, h1, h2⟩ := brightness_range h
    refine ⟨r, hr, h1, ?_, h2⟩
    have : (0.8 : ℚ) ≤ 13421773 / 16777216 := by norm_num
    linarith

/-- Claim C8, amended, on concrete heights: `-3` gives `0.8f`, `25` gives `1.0`,
and the brightness at `-3` is not above the one at `25`. -/
theorem brightness_mapping_witness :
    (fle (F32.fin (-3)) (F32.fin 0) = true ∧ fle (F32.fin 20) (F32.fin 25) = true
      ∧ fle (F32.fin (-3)) (F32.fin 25) = true)
    ∧ brightness (F32.fin (-3)) = F32.fin (13421773 / 16777216)
    ∧ brightness (F32.fin 25) = F32.fin 1
    ∧ fle (brightness (F32.fin (-3))) (brightness (F32.fin 25)) = true
    ∧ brightness F32.nan = F32.fin (13421773 / 16777216) := by
  have h := brightness_mapping (F32.fin (-3)) (F32.fin 25)
  have h2 := brightness_mapping (F32.fin 25) (F32.fin 25)
  have h3 := brightness_mapping F32.nan F32.nan
  exact ⟨⟨by decide!, by decide!, by decide!⟩, h.2.1 (Or.inr (by decide!)), h2.2.2.1 (by decide!),
    h.2.2.2.1 (by decide!), h3.2.1 (Or.inl rfl)⟩
end NurbsSurface
